import Mathlib

/-!
Verification of the OpenAPI endpoint extractor (src/core/extractor.ts).

The extractor works over untyped JSON documents, so the embedding models
values with an untyped `Js` inductive.  Modelling conventions:
  * JavaScript `undefined` is represented by `Option.none` (a missing
    object key, a failed lookup); JSON `null` is the value `Js.null`.
    The operators `??` and `||` and truthiness tests are modelled by
    `jsCoalesceO`, `jsOrO` and `jsTruthy` below.
  * Object keys are assumed distinct (the documents are parsed JSON) and
    are iterated in insertion order, as JavaScript does for the
    non-numeric keys appearing in OpenAPI documents.
  * Numeric literals are modelled as integers; no extracted behaviour
    depends on float formatting.
  * Spreading a truthy non-object into an object literal, calling
    `.some`/`.map` on a truthy non-array, and `Object.keys` of a
    non-object are degenerate-document cases the source would throw on
    or produce index keys for; the model treats those fields as empty.
  * Recursion through `$ref` chains and `allOf` branches of the held
    document can diverge in the source (the spec accepts this for cyclic
    documents), so the recursive functions take a fuel argument and
    return `none` exactly when the fuel runs out; `some r` means the
    source terminates with result `r`.  Loops over lists inside a
    recursive function are factored into explicit helper functions that
    receive the recursive function instantiated at the inner fuel value.
-/

/-- Untyped JSON value as parsed from an OpenAPI document. -/
inductive Js where
  | null : Js
  | bool : Bool → Js
  | num : Int → Js
  | str : String → Js
  | arr : List Js → Js
  | obj : List (String × Js) → Js

mutual

/-- Decidable equality of JSON values. -/
def jsDecEq : (a b : Js) → Decidable (a = b)
  | Js.null, Js.null => isTrue rfl
  | Js.bool a, Js.bool b =>
    if h : a = b then isTrue (by rw [h]) else isFalse (by intro hc; injection hc; contradiction)
  | Js.num a, Js.num b =>
    if h : a = b then isTrue (by rw [h]) else isFalse (by intro hc; injection hc; contradiction)
  | Js.str a, Js.str b =>
    if h : a = b then isTrue (by rw [h]) else isFalse (by intro hc; injection hc; contradiction)
  | Js.arr a, Js.arr b =>
    match jsListDecEq a b with
    | isTrue h => isTrue (by rw [h])
    | isFalse h => isFalse (by intro hc; injection hc; contradiction)
  | Js.obj a, Js.obj b =>
    match jsFieldsDecEq a b with
    | isTrue h => isTrue (by rw [h])
    | isFalse h => isFalse (by intro hc; injection hc; contradiction)
  | Js.null, Js.bool _ => isFalse (fun h => Js.noConfusion h)
  | Js.null, Js.num _ => isFalse (fun h => Js.noConfusion h)
  | Js.null, Js.str _ => isFalse (fun h => Js.noConfusion h)
  | Js.null, Js.arr _ => isFalse (fun h => Js.noConfusion h)
  | Js.null, Js.obj _ => isFalse (fun h => Js.noConfusion h)
  | Js.bool _, Js.null => isFalse (fun h => Js.noConfusion h)
  | Js.bool _, Js.num _ => isFalse (fun h => Js.noConfusion h)
  | Js.bool _, Js.str _ => isFalse (fun h => Js.noConfusion h)
  | Js.bool _, Js.arr _ => isFalse (fun h => Js.noConfusion h)
  | Js.bool _, Js.obj _ => isFalse (fun h => Js.noConfusion h)
  | Js.num _, Js.null => isFalse (fun h => Js.noConfusion h)
  | Js.num _, Js.bool _ => isFalse (fun h => Js.noConfusion h)
  | Js.num _, Js.str _ => isFalse (fun h => Js.noConfusion h)
  | Js.num _, Js.arr _ => isFalse (fun h => Js.noConfusion h)
  | Js.num _, Js.obj _ => isFalse (fun h => Js.noConfusion h)
  | Js.str _, Js.null => isFalse (fun h => Js.noConfusion h)
  | Js.str _, Js.bool _ => isFalse (fun h => Js.noConfusion h)
  | Js.str _, Js.num _ => isFalse (fun h => Js.noConfusion h)
  | Js.str _, Js.arr _ => isFalse (fun h => Js.noConfusion h)
  | Js.str _, Js.obj _ => isFalse (fun h => Js.noConfusion h)
  | Js.arr _, Js.null => isFalse (fun h => Js.noConfusion h)
  | Js.arr _, Js.bool _ => isFalse (fun h => Js.noConfusion h)
  | Js.arr _, Js.num _ => isFalse (fun h => Js.noConfusion h)
  | Js.arr _, Js.str _ => isFalse (fun h => Js.noConfusion h)
  | Js.arr _, Js.obj _ => isFalse (fun h => Js.noConfusion h)
  | Js.obj _, Js.null => isFalse (fun h => Js.noConfusion h)
  | Js.obj _, Js.bool _ => isFalse (fun h => Js.noConfusion h)
  | Js.obj _, Js.num _ => isFalse (fun h => Js.noConfusion h)
  | Js.obj _, Js.str _ => isFalse (fun h => Js.noConfusion h)
  | Js.obj _, Js.arr _ => isFalse (fun h => Js.noConfusion h)

/-- Decidable equality of JSON value lists. -/
def jsListDecEq : (a b : List Js) → Decidable (a = b)
  | [], [] => isTrue rfl
  | [], _ :: _ => isFalse (fun h => List.noConfusion h)
  | _ :: _, [] => isFalse (fun h => List.noConfusion h)
  | x :: xs, y :: ys =>
    match jsDecEq x y, jsListDecEq xs ys with
    | isTrue h1, isTrue h2 => isTrue (by rw [h1, h2])
    | isFalse h1, _ => isFalse (by intro hc; injection hc; contradiction)
    | _, isFalse h2 => isFalse (by intro hc; injection hc; contradiction)

/-- Decidable equality of object field lists. -/
def jsFieldsDecEq : (a b : List (String × Js)) → Decidable (a = b)
  | [], [] => isTrue rfl
  | [], _ :: _ => isFalse (fun h => List.noConfusion h)
  | _ :: _, [] => isFalse (fun h => List.noConfusion h)
  | (k1, x) :: xs, (k2, y) :: ys =>
    if hk : k1 = k2 then
      match jsDecEq x y, jsFieldsDecEq xs ys with
      | isTrue h1, isTrue h2 => isTrue (by rw [hk, h1, h2])
      | isFalse h1, _ =>
        isFalse (by intro hc; injection hc with hp hl; exact h1 (congrArg Prod.snd hp))
      | _, isFalse h2 => isFalse (by intro hc; injection hc; contradiction)
    else isFalse (by intro hc; injection hc with hp hl; exact hk (congrArg Prod.fst hp))

end

instance : DecidableEq Js := jsDecEq

/-- Key lookup in an association list of object fields. -/
def jsObjGet (fs : List (String × Js)) (k : String) : Option Js :=
  match fs with
  | [] => none
  | (k2, v) :: rest => if k2 = k then some v else jsObjGet rest k

/-- Property access `v.k`: a key lookup on objects, `undefined` otherwise. -/
def jsGet (v : Js) (k : String) : Option Js :=
  match v with
  | Js.obj fs => jsObjGet fs k
  | _ => none

/-- JavaScript truthiness of a JSON value. -/
def jsTruthy : Js → Bool
  | Js.null => false
  | Js.bool b => b
  | Js.num n => decide (n ≠ 0)
  | Js.str s => decide (s ≠ "")
  | Js.arr _ => true
  | Js.obj _ => true

/-- Truthiness of a possibly-`undefined` value. -/
def jsTruthyO : Option Js → Bool
  | some v => jsTruthy v
  | none => false

/-- The nullish-coalescing operator `a ?? b`. -/
def jsCoalesceO : Option Js → Option Js → Option Js
  | some Js.null, b => b
  | none, b => b
  | some v, _ => some v

/-- `a ?? d` with a definite default. -/
def jsCoalesceV (a : Option Js) (d : Js) : Js :=
  match a with
  | some Js.null => d
  | none => d
  | some v => v

/-- The truthy-or operator `a || b`. -/
def jsOrO (a b : Option Js) : Option Js := if jsTruthyO a then a else b

/-- Optional-chained property access `x?.k`. -/
def jsOGet (a : Option Js) (k : String) : Option Js :=
  match a with
  | some v => jsGet v k
  | none => none

/-- `s.split(c)` for a single-character separator, via the underlying
character list (the core `String.splitOn` does not reduce definitionally). -/
def splitCharAux (c : Char) : List Char → List Char → List String
  | [], acc => [String.mk acc.reverse]
  | x :: xs, acc =>
    if x = c then String.mk acc.reverse :: splitCharAux c xs []
    else splitCharAux c xs (x :: acc)

/-- `s.split(c)` for a single-character separator. -/
def splitChar (c : Char) (s : String) : List String := splitCharAux c s.data []

/-- `ref.split('/')` and take the final segment. -/
def lastSeg (s : String) : String := (splitChar (Char.ofNat 47) s).getLastD ""

/-- `s.startsWith(p)`. -/
def strStartsWith (s p : String) : Bool := List.isPrefixOf p.data s.data

/-- `s.endsWith(suffix)`. -/
def strEndsWith (s suffix : String) : Bool := List.isSuffixOf suffix.data s.data

/-- Whether `needle` occurs as a contiguous run of `hay` (`includes`). -/
def hasSub : List Char → List Char → Bool
  | [], n => n.isEmpty
  | h :: t, n => List.isPrefixOf n (h :: t) || hasSub t n

/-- `type.includes('array')` on the (normally string) type label. -/
def typeHasArray (v : Js) : Bool :=
  match v with
  | Js.str s => hasSub s.data "array".data
  | _ => false

/-- Rule 1 of `extractSchemaName`: the node carries a truthy string `$ref`
(`schema.$ref && typeof schema.$ref === 'string'`). -/
def esnRefName (schema : Js) : Option String :=
  match jsGet schema "$ref" with
  | some (Js.str r) => if r = "" then none else some r
  | _ => none

/-- The items of the `allOf`, `anyOf`, `oneOf` arrays of a node, in the key
order the source iterates them (rule 2 of `extractSchemaName`). -/
def compositeItems (schema : Js) : List Js :=
  (match jsGet schema "allOf" with | some (Js.arr l) => l | _ => []) ++
  (match jsGet schema "anyOf" with | some (Js.arr l) => l | _ => []) ++
  (match jsGet schema "oneOf" with | some (Js.arr l) => l | _ => [])

/-- The `for (const item of schema[key])` loop of rule 2 of
`extractSchemaName`, over the recursive call `f`: the first truthy
recovered name wins. -/
def esnListWith (f : Js → Option (Option String)) : List Js → Option (Option String)
  | [] => some none
  | x :: xs =>
    match f x with
    | none => none
    | some (some n) => if n = "" then esnListWith f xs else some (some n)
    | some none => esnListWith f xs

/-- `extractSchemaName` (extractor.ts lines 295-322): recover a schema name
from a `$ref`, a composition branch, or an array item. -/
def extractSchemaName : Nat → Js → Option (Option String)
  | 0, _ => none
  | fuel+1, schema =>
    if jsTruthy schema = false then some none
    else
      match esnRefName schema with
      | some r => some (some (lastSeg r))
      | none =>
        match esnListWith (extractSchemaName fuel) (compositeItems schema) with
        | none => none
        | some (some n) => some (some n)
        | some none =>
          match jsGet schema "type", jsGet schema "items" with
          | some (Js.str t), some it =>
            if t = "array" && jsTruthy it then
              match extractSchemaName fuel it with
              | none => none
              | some (some n) =>
                if n = "" then some none
                else some (some (if strEndsWith n "[]" then n else n ++ "[]"))
              | some none => some none
            else some none
          | _, _ => some none

/-- `extractSchemaName` applied to a possibly-`undefined` argument
(the `if (!schema) return undefined` guard covers `undefined`). -/
def esnO (fuel : Nat) (schema : Option Js) : Option (Option String) :=
  match schema with
  | some v => extractSchemaName fuel v
  | none => some none

/-- `extractSchemaName(a) ?? extractSchemaName(b)`, with the short-circuit
of `??`: the second call only runs when the first yields `undefined`. -/
def esnChain (fuel : Nat) (a b : Option Js) : Option (Option String) :=
  match esnO fuel a with
  | none => none
  | some (some n) => some (some n)
  | some none => esnO fuel b

/-- A canonical array-index string (digits, no superfluous leading zero),
as used by JavaScript array element access. -/
def parseArrayIndex (s : String) : Option Nat :=
  match s.data with
  | [] => none
  | [c] => if c.isDigit then some (c.toNat - 48) else none
  | c :: cs =>
    if c.isDigit && decide (c ≠ Char.ofNat 48) && cs.all Char.isDigit then
      some ((c :: cs).foldl (fun acc d => acc * 10 + (d.toNat - 48)) 0)
    else none

/-- `current && typeof current === 'object'`: the pointer-walk guard. -/
def jsIsTruthyObject : Js → Bool
  | Js.obj _ => true
  | Js.arr _ => true
  | _ => false

/-- `current[part]` during the pointer walk: key lookup on objects,
numeric-string indexing on arrays, `undefined` otherwise. -/
def jsStep (v : Js) (part : String) : Option Js :=
  match v with
  | Js.obj fs => jsObjGet fs part
  | Js.arr xs =>
    match parseArrayIndex part with
    | some i => xs.get? i
    | none => none
  | _ => none

/-- The `for (const part of parts)` loop of `resolveRef`: `none` models the
early `return schema`, `some cur` the final loop value (`cur = none` is a
final `undefined`). -/
def ptrWalk : Option Js → List String → Option (Option Js)
  | cur, [] => some cur
  | some c, part :: rest =>
    if jsIsTruthyObject c then ptrWalk (jsStep c part) rest else none
  | none, _ :: _ => none

/-- `resolveRef` (extractor.ts lines 342-361): walk an in-document JSON
pointer, following alias chains recursively. -/
def resolveRef : Nat → Js → Option Js → Option Js
  | 0, _, _ => none
  | fuel+1, schema, spec =>
    if jsTruthy schema = false then some schema
    else
      match spec with
      | none => some schema
      | some doc =>
        match jsGet schema "$ref" with
        | some (Js.str ref) =>
          if strStartsWith ref "#/" = false then some schema
          else
            match ptrWalk (some doc) ((splitChar (Char.ofNat 47) ref).drop 1) with
            | none => some schema
            | some none => some schema
            | some (some c) =>
              if jsTruthy c then resolveRef fuel c spec else some schema
        | _ => some schema

/-- The flattened view produced by `getEffectiveSchema`; each field is
`none` when the corresponding key is absent (`return {}` leaves all of
them absent). -/
structure Eff where
  properties : Option (List (String × Js))
  type : Option Js
  enum : Option Js
  items : Option Js
  required : Option (List Js)

/-- `{ ...(x || {}) }`: the fields of an object, else nothing. -/
def spreadFields (v : Option Js) : List (String × Js) :=
  match v with
  | some (Js.obj fs) => fs
  | _ => []

/-- `{ ...a, ...b }`: keys of `a` keep their position with values
overridden by `b` on collision; new keys of `b` are appended. -/
def spreadMerge (a b : List (String × Js)) : List (String × Js) :=
  a.map (fun p => match jsObjGet b p.1 with
                  | some v => (p.1, v)
                  | none => p) ++
  b.filter (fun p => (jsObjGet a p.1).isNone)

/-- `resolved.required ? [...resolved.required] : []` for array-valued
`required` fields. -/
def reqList (v : Option Js) : List Js :=
  match v with
  | some (Js.arr xs) => xs
  | _ => []

/-- SameValueZero equality as used by `new Set`: structural on JSON
primitives; distinct object/array nodes of a parsed document are distinct
references, hence never equal. -/
def jsSameValueZero : Js → Js → Bool
  | Js.null, Js.null => true
  | Js.bool a, Js.bool b => a == b
  | Js.num a, Js.num b => a == b
  | Js.str a, Js.str b => a == b
  | _, _ => false

/-- The worker of `dedupJs`, keeping the first occurrence of each element
not yet seen. -/
def dedupJsAux (seen : List Js) : List Js → List Js
  | [] => []
  | x :: xs =>
    if seen.any (fun y => jsSameValueZero y x) then dedupJsAux seen xs
    else x :: dedupJsAux (seen ++ [x]) xs

/-- `Array.from(new Set(l))`: first occurrences, in order. -/
def dedupJs (l : List Js) : List Js := dedupJsAux [] l

/-- `Array.from(new Set([...a, ...b]))`. -/
def dedupJsAppend (a b : List Js) : List Js := dedupJs (a ++ b)

/-- `if (!a && b) then b else a` for the singular fields of the merge:
first truthy writer wins. -/
def fillIf (a b : Option Js) : Option Js :=
  if !jsTruthyO a && jsTruthyO b then b else a

/-- One `allOf` branch merged into the accumulator (the loop body of
`getEffectiveSchema`). -/
def mergeEff (acc sub : Eff) : Eff :=
  { properties := some (spreadMerge (acc.properties.getD []) (sub.properties.getD []))
    type := fillIf acc.type sub.type
    enum := fillIf acc.enum sub.enum
    items := fillIf acc.items sub.items
    required :=
      match sub.required with
      | some r => some (dedupJsAppend (acc.required.getD []) r)
      | none => acc.required }

/-- The `for (const sub of resolved.allOf)` loop of `getEffectiveSchema`,
over the recursive call `g`. -/
def effMergeListWith (g : Js → Option Eff) : List Js → Eff → Option Eff
  | [], acc => some acc
  | sub :: rest, acc =>
    match g sub with
    | none => none
    | some se => effMergeListWith g rest (mergeEff acc se)

/-- `getEffectiveSchema` (extractor.ts lines 366-392): resolve the node and
flatten its `allOf` composition into a single effective view. -/
def getEffectiveSchema : Nat → Js → Option Js → Option Eff
  | 0, _, _ => none
  | fuel+1, schema, spec =>
    if jsTruthy schema = false then
      some { properties := none, type := none, enum := none, items := none, required := none }
    else
      match resolveRef fuel schema spec with
      | none => none
      | some resolved =>
        let base : Eff :=
          { properties := some (spreadFields (jsGet resolved "properties"))
            type := jsGet resolved "type"
            enum := jsGet resolved "enum"
            items := jsGet resolved "items"
            required := some (reqList (jsGet resolved "required")) }
        match jsGet resolved "allOf" with
        | some (Js.arr subs) =>
          effMergeListWith (fun s => getEffectiveSchema fuel s spec) subs base
        | _ => some base

/-- The simplified schema tree (`SimplifiedSchema` of types/openapi.ts),
with the fields in the order the source object literal creates them. -/
inductive SimplifiedSchema where
  | mk : Js → Option String → Option Js → Option Js → Option Js → Option (List Js) →
         Option (List (String × SimplifiedSchema)) → Option SimplifiedSchema → SimplifiedSchema

/-- The `type` label of a simplified node. -/
def SimplifiedSchema.type : SimplifiedSchema → Js
  | .mk t _ _ _ _ _ _ _ => t

/-- The recovered `schemaName` of a simplified node. -/
def SimplifiedSchema.schemaName : SimplifiedSchema → Option String
  | .mk _ sn _ _ _ _ _ _ => sn

/-- The `description` of a simplified node. -/
def SimplifiedSchema.description : SimplifiedSchema → Option Js
  | .mk _ _ d _ _ _ _ _ => d

/-- The `example` of a simplified node (named `exampleV` because `example`
is reserved in Lean). -/
def SimplifiedSchema.exampleV : SimplifiedSchema → Option Js
  | .mk _ _ _ e _ _ _ _ => e

/-- The `enum` of a simplified node. -/
def SimplifiedSchema.enum : SimplifiedSchema → Option Js
  | .mk _ _ _ _ en _ _ _ => en

/-- The `required` list of a simplified node. -/
def SimplifiedSchema.required : SimplifiedSchema → Option (List Js)
  | .mk _ _ _ _ _ r _ _ => r

/-- The `properties` map of a simplified node. -/
def SimplifiedSchema.properties : SimplifiedSchema → Option (List (String × SimplifiedSchema))
  | .mk _ _ _ _ _ _ p _ => p

/-- The `items` node of a simplified node. -/
def SimplifiedSchema.items : SimplifiedSchema → Option SimplifiedSchema
  | .mk _ _ _ _ _ _ _ i => i

/-- The `{ type: 'unknown' }` node returned for an absent schema. -/
def unknownSchema : SimplifiedSchema :=
  .mk (Js.str "unknown") none none none none none none none

/-- The `for (const [key, prop] of Object.entries(effective.properties))`
loop of `simplifySchema`, over the recursive call `sf` and the name
chain `en` (both already instantiated at the inner fuel). -/
def simplifyPropsWith (sf : Option Js → Option Js → Option String → Option SimplifiedSchema)
    (en : Option Js → Option Js → Option (Option String)) (effOrig : Option Eff) :
    List (String × Js) → Option (List (String × SimplifiedSchema))
  | [] => some []
  | (key, prop) :: rest =>
    let origProp := (effOrig.bind Eff.properties).bind (fun ps => jsObjGet ps key)
    match en origProp (some prop) with
    | none => none
    | some propName =>
      match sf (some prop) origProp propName with
      | none => none
      | some s =>
        match simplifyPropsWith sf en effOrig rest with
        | none => none
        | some others => some ((key, s) :: others)

/-- The simplified type label
`effective.type || (Object.keys(effective.properties || {}).length > 0 ? 'object' : 'unknown')`
(extractor.ts line 417). -/
def effType (eff : Eff) : Js :=
  match eff.type with
  | some t =>
    if jsTruthy t then t
    else if (eff.properties.getD []).length > 0 then Js.str "object"
    else Js.str "unknown"
  | none =>
    if (eff.properties.getD []).length > 0 then Js.str "object"
    else Js.str "unknown"

/-- The array-item step of `simplifySchema` (extractor.ts lines 437-443),
over the recursive call `sf` and the name chain `en`. -/
def simplifyItemsWith (sf : Option Js → Option Js → Option String → Option SimplifiedSchema)
    (en : Option Js → Option Js → Option (Option String)) (typeJs : Js) (eff : Eff)
    (schema : Js) (origO : Option Js) (effOrig : Option Eff) : Option (Option SimplifiedSchema) :=
  let itemsJs := jsOrO eff.items (jsGet schema "items")
  if typeHasArray typeJs && jsTruthyO itemsJs then
    let origItems := jsOrO (effOrig.bind Eff.items) (jsOGet origO "items")
    match en origItems itemsJs with
    | none => none
    | some itemName => (sf itemsJs origItems itemName).map some
  else some none

/-- `simplifySchema` (extractor.ts lines 397-446): attach a recovered name
and metadata to the effective shape, recursively over properties and
array items. -/
def simplifySchema : Nat → Option Js → Option Js → Option String → Option Js →
    Option SimplifiedSchema
  | 0, _, _, _, _ => none
  | fuel+1, schemaO, origO, nameO, spec =>
    match schemaO with
    | none => some unknownSchema
    | some schema =>
      if jsTruthy schema = false then some unknownSchema
      else
        match (match nameO with
               | some n => some (some n)
               | none => esnChain fuel origO (some schema)) with
        | none => none
        | some resolvedName =>
          let description := jsCoalesceO (jsGet schema "description") (jsOGet origO "description")
          let exampleV := jsCoalesceO (jsGet schema "example") (jsOGet origO "example")
          match getEffectiveSchema fuel schema spec with
          | none => none
          | some eff =>
            match (match origO with
                   | some o =>
                     if jsTruthy o then (getEffectiveSchema fuel o spec).map some
                     else some none
                   | none => some none) with
            | none => none
            | some effOrig =>
              match (match eff.properties with
                     | none => some none
                     | some plist =>
                       (simplifyPropsWith
                         (fun a b c => simplifySchema fuel a b c spec)
                         (fun a b => esnChain fuel a b) effOrig plist).map some) with
              | none => none
              | some props =>
                match simplifyItemsWith
                        (fun a b c => simplifySchema fuel a b c spec)
                        (fun a b => esnChain fuel a b) (effType eff) eff schema origO effOrig with
                | none => none
                | some itemsResult =>
                  some (.mk (effType eff) resolvedName description exampleV eff.enum eff.required
                          props itemsResult)

/-- Minimal JSON escaping for `JSON.stringify` of enum labels (quote,
backslash and common control characters; rarer control characters are
left verbatim, which no extracted behaviour depends on). -/
def jsEscapeChar (c : Char) : String :=
  if c = Char.ofNat 34 then "\\\""
  else if c = Char.ofNat 92 then "\\\\"
  else if c = Char.ofNat 10 then "\\n"
  else if c = Char.ofNat 13 then "\\r"
  else if c = Char.ofNat 9 then "\\t"
  else String.mk [c]

/-- `JSON.stringify` of a string. -/
def jsQuote (s : String) : String :=
  "\"" ++ String.join (s.data.map jsEscapeChar) ++ "\""

/-- Stringify every element of a list, over the recursive call `f`. -/
def jsStringifyListWith (f : Js → Option String) : List Js → Option (List String)
  | [] => some []
  | x :: xs =>
    match f x, jsStringifyListWith f xs with
    | some s, some rest => some (s :: rest)
    | _, _ => none

/-- Stringify every field of an object, over the recursive call `f`. -/
def jsStringifyFieldsWith (f : Js → Option String) : List (String × Js) → Option (List String)
  | [] => some []
  | (k, v) :: xs =>
    match f v, jsStringifyFieldsWith f xs with
    | some s, some rest => some ((jsQuote k ++ ":" ++ s) :: rest)
    | _, _ => none

/-- `JSON.stringify` of a JSON value (used for enum type labels). -/
def jsStringify : Nat → Js → Option String
  | 0, _ => none
  | fuel+1, v =>
    match v with
    | Js.null => some "null"
    | Js.bool b => some (if b then "true" else "false")
    | Js.num n => some (toString n)
    | Js.str s => some (jsQuote s)
    | Js.arr xs =>
      (jsStringifyListWith (jsStringify fuel) xs).map
        (fun l => "[" ++ String.intercalate "," l ++ "]")
    | Js.obj fs =>
      (jsStringifyFieldsWith (jsStringify fuel) fs).map
        (fun l => "\x7b" ++ String.intercalate "," l ++ "\x7d")

/-- String coercion of the raw `type` value when it is not a string
(`return schema.type ?? 'object'` feeds a string-typed field); shallow
for composite values, which no OpenAPI document puts there. -/
def jsCoerceString : Js → String
  | Js.null => "null"
  | Js.bool b => if b then "true" else "false"
  | Js.num n => toString n
  | Js.str s => s
  | Js.arr _ => ""
  | Js.obj _ => "[object Object]"

/-- `getSchemaType` (extractor.ts lines 324-337): primitive type label of a
parameter schema. -/
def getSchemaType : Nat → Option Js → Option String
  | 0, _ => none
  | fuel+1, schemaO =>
    match schemaO with
    | none => some "unknown"
    | some s =>
      if jsTruthy s = false then some "unknown"
      else if decide (jsGet s "type" = some (Js.str "array")) && jsTruthyO (jsGet s "items") then
        match jsGet s "items" with
        | some it => (getSchemaType fuel (some it)).map (fun r => r ++ "[]")
        | none => some "unknown"
      else if jsTruthyO (jsGet s "enum") then
        match jsGet s "enum" with
        | some (Js.arr xs) =>
          (jsStringifyListWith (jsStringify fuel) xs).map (String.intercalate " | ")
        | _ => some ""
      else
        some (match jsGet s "type" with
              | none => "object"
              | some Js.null => "object"
              | some v => jsCoerceString v)

/-- The normalized parameter record (`ParameterInfo` of types/openapi.ts);
the source field `in` is named `location` because `in` is reserved in
Lean, and `example` is `exampleV`. -/
structure ParameterInfo where
  name : Option Js
  location : Option Js
  required : Js
  type : String
  description : Option Js
  exampleV : Option Js

/-- `extractParameter` (extractor.ts lines 186-197). -/
def extractParameter (fuel : Nat) (param : Js) : Option ParameterInfo :=
  let schemaO := jsGet param "schema"
  match getSchemaType fuel schemaO with
  | none => none
  | some t =>
    some { name := jsGet param "name"
           location := jsGet param "in"
           required := jsCoalesceV (jsGet param "required") (Js.bool false)
           type := t
           description := jsGet param "description"
           exampleV := jsCoalesceO (jsGet param "example") (jsOGet schemaO "example") }

/-- `(p as { in: string }).in === 'body'`. -/
def isBodyParam (p : Js) : Bool :=
  match jsGet p "in" with
  | some (Js.str s) => decide (s = "body")
  | _ => false

/-- `params?.find(p => p.in === 'body')` on an array value. -/
def findBodyParam (v : Js) : Option Js :=
  match v with
  | Js.arr xs => xs.find? isBodyParam
  | _ => none

/-- `(x.parameters ?? []) as ParameterObject[]`. -/
def paramsArr (v : Option Js) : List Js :=
  match jsCoalesceV v (Js.arr []) with
  | Js.arr xs => xs
  | _ => []

/-- `extractAllParameters` (extractor.ts lines 115-130): path-level then
operation-level parameters; the first body-located one is diverted. -/
def extractAllParameters (fuel : Nat) (operation pathItem : Js) :
    Option (List ParameterInfo × Option Js) :=
  let pathParams := paramsArr (jsGet pathItem "parameters")
  let opParams := paramsArr (jsGet operation "parameters")
  let allParams := pathParams ++ opParams
  let bodyParam := allParams.find? isBodyParam
  let nonBodyParams := allParams.filter (fun p => !isBodyParam p)
  match nonBodyParams.mapM (extractParameter fuel) with
  | none => none
  | some ps => some (ps, bodyParam)

/-- The normalized request-body record (`RequestBodyInfo` of
types/openapi.ts). -/
structure RequestBodyInfo where
  required : Js
  contentType : String
  schema : SimplifiedSchema
  schemaName : Option String
  exampleV : Option Js

/-- `extractSwagger2BodyParam` (extractor.ts lines 202-221): the older
body-parameter dialect, with content type fixed to JSON. -/
def extractSwagger2BodyParam (fuel : Nat) (bodyParam : Js) (originalBodyParam : Option Js)
    (originalSpec : Option Js) : Option (Option RequestBodyInfo) :=
  let rawSchema := jsGet bodyParam "schema"
  if jsTruthyO rawSchema = false then some none
  else
    let originalSchema := jsOGet originalBodyParam "schema"
    match esnChain fuel originalSchema rawSchema with
    | none => none
    | some schemaName =>
      match simplifySchema fuel rawSchema originalSchema schemaName originalSpec with
      | none => none
      | some sch =>
        some (some { required := jsCoalesceV (jsGet bodyParam "required") (Js.bool false)
                     contentType := "application/json"
                     schema := sch
                     schemaName := schemaName
                     exampleV := jsOGet rawSchema "example" })

/-- `Object.keys` of an object value. -/
def jsKeys (v : Js) : List String :=
  match v with
  | Js.obj fs => fs.map Prod.fst
  | _ => []

/-- `extractRequestBody` (extractor.ts lines 223-253): the modern
request-body object, preferring JSON content. -/
def extractRequestBody (fuel : Nat) (body : Js) (originalBody : Option Js)
    (originalSpec : Option Js) : Option (Option RequestBodyInfo) :=
  match jsGet body "content" with
  | none => some none
  | some content =>
    if jsTruthy content = false then some none
    else
      let contentTypeO : Option String :=
        if jsTruthyO (jsGet content "application/json") then some "application/json"
        else
          match jsKeys content with
          | [] => none
          | k :: _ => if k = "" then none else some k
      match contentTypeO with
      | none => some none
      | some contentType =>
        let mediaType := jsGet content contentType
        let rawSchema := jsOGet mediaType "schema"
        let originalMediaType := jsOGet (jsOGet originalBody "content") contentType
        let originalSchema := jsOGet originalMediaType "schema"
        match esnChain fuel originalSchema rawSchema with
        | none => none
        | some schemaName =>
          match simplifySchema fuel rawSchema originalSchema schemaName originalSpec with
          | none => none
          | some sch =>
            some (some { required := jsCoalesceV (jsGet body "required") (Js.bool false)
                         contentType := contentType
                         schema := sch
                         schemaName := schemaName
                         exampleV := jsCoalesceO (jsOGet mediaType "example")
                                       (jsOGet rawSchema "example") })

/-- `extractEndpointRequestBody` (extractor.ts lines 135-155): route to the
modern or the older body dialect. -/
def extractEndpointRequestBody (fuel : Nat) (operation : Js) (bodyParam : Option Js)
    (originalOperation : Option Js) (originalSpec : Option Js) : Option (Option RequestBodyInfo) :=
  let orb0 := jsOGet originalOperation "requestBody"
  match (if jsTruthyO (jsOGet orb0 "$ref") then
           match orb0 with
           | some o => (resolveRef fuel o originalSpec).map some
           | none => some none
         else some orb0) with
  | none => none
  | some originalRequestBody =>
    let originalBodyParam :=
      match jsOGet originalOperation "parameters" with
      | some ps => findBodyParam ps
      | none => none
    if jsTruthyO (jsGet operation "requestBody") then
      match jsGet operation "requestBody" with
      | some rb => extractRequestBody fuel rb originalRequestBody originalSpec
      | none => some none
    else
      match bodyParam with
      | some bp =>
        if jsTruthy bp then extractSwagger2BodyParam fuel bp originalBodyParam originalSpec
        else some none
      | none => some none

/-- The normalized response record (`ResponseInfo` of types/openapi.ts). -/
structure ResponseInfo where
  statusCode : String
  description : Js
  schema : Option SimplifiedSchema
  schemaName : Option String
  exampleV : Option Js

/-- The fixed allow-list of status codes (`importantCodes`,
extractor.ts line 263). -/
def importantCodes : List String :=
  ["200", "201", "204", "400", "401", "403", "404", "500"]

/-- The `for (const statusCode of importantCodes)` loop of
`extractResponses` (extractor.ts lines 265-287). -/
def extractResponsesList (fuel : Nat) (responses originalResponses : Option Js)
    (originalSpec : Option Js) : List String → Option (List ResponseInfo)
  | [] => some []
  | code :: rest =>
    let response := jsOGet responses code
    if jsTruthyO response = false then
      extractResponsesList fuel responses originalResponses originalSpec rest
    else
      let content := jsOGet (jsOGet response "content") "application/json"
      let rawSchema := jsCoalesceO (jsOGet content "schema") (jsOGet response "schema")
      let originalResponse := jsOGet originalResponses code
      let originalContent := jsOGet (jsOGet originalResponse "content") "application/json"
      let originalSchema :=
        jsCoalesceO (jsOGet originalContent "schema") (jsOGet originalResponse "schema")
      match esnChain fuel originalSchema rawSchema with
      | none => none
      | some schemaName =>
        match (if jsTruthyO rawSchema then
                 (simplifySchema fuel rawSchema originalSchema schemaName originalSpec).map some
               else some none) with
        | none => none
        | some sch =>
          match extractResponsesList fuel responses originalResponses originalSpec rest with
          | none => none
          | some others =>
            some ({ statusCode := code
                    description := jsCoalesceV (jsOGet response "description") (Js.str "")
                    schema := sch
                    schemaName := schemaName
                    exampleV := jsCoalesceO (jsOGet content "example")
                                  (jsOGet rawSchema "example") } :: others)

/-- `extractResponses` (extractor.ts lines 255-290). -/
def extractResponses (fuel : Nat) (responses originalResponses : Option Js)
    (originalSpec : Option Js) : Option (List ResponseInfo) :=
  extractResponsesList fuel responses originalResponses originalSpec importantCodes

/-- `extractEndpointResponses` (extractor.ts lines 160-174). -/
def extractEndpointResponses (fuel : Nat) (operation : Js)
    (originalOperation originalSpec : Option Js) : Option (List ResponseInfo) :=
  let or0 := jsOGet originalOperation "responses"
  match (if jsTruthyO (jsOGet or0 "$ref") then
           match or0 with
           | some o => (resolveRef fuel o originalSpec).map some
           | none => some none
         else some or0) with
  | none => none
  | some originalResponses =>
    extractResponses fuel (jsGet operation "responses") originalResponses originalSpec

/-- ASCII uppercasing (paths and methods are ASCII). -/
def asciiUpper (c : Char) : Char :=
  if c.isLower then Char.ofNat (c.toNat - 32) else c

/-- `generateOperationId` (extractor.ts lines 176-184): strip braces, turn
slashes into underscores, drop one leading underscore, uppercase. -/
def generateOperationId (method path : String) : String :=
  let noBraces := path.data.filter (fun c => !(c = Char.ofNat 123 || c = Char.ofNat 125))
  let underscored := noBraces.map (fun c => if c = Char.ofNat 47 then Char.ofNat 95 else c)
  let stripped :=
    match underscored with
    | c :: rest => if c = Char.ofNat 95 then rest else underscored
    | [] => []
  String.mk (method.data.map asciiUpper) ++ "_" ++ String.mk (stripped.map asciiUpper)

/-- The normalized endpoint record (`EndpointInfo` of types/openapi.ts). -/
structure EndpointInfo where
  operationId : Js
  method : String
  path : String
  summary : Option Js
  description : Option Js
  tags : Js
  parameters : List ParameterInfo
  requestBody : Option RequestBodyInfo
  responses : List ResponseInfo

/-- `extractEndpoint` (extractor.ts lines 80-110). -/
def extractEndpoint (fuel : Nat) (path method : String) (operation pathItem : Js)
    (originalOperation originalSpec : Option Js) : Option EndpointInfo :=
  match extractAllParameters fuel operation pathItem with
  | none => none
  | some (parameters, bodyParam) =>
    match extractEndpointRequestBody fuel operation bodyParam originalOperation originalSpec with
    | none => none
    | some requestBody =>
      match extractEndpointResponses fuel operation originalOperation originalSpec with
      | none => none
      | some responses =>
        some { operationId := jsCoalesceV (jsGet operation "operationId")
                 (Js.str (generateOperationId method path))
               method := method
               path := path
               summary := jsGet operation "summary"
               description := jsGet operation "description"
               tags := jsCoalesceV (jsGet operation "tags") (Js.arr [Js.str "default"])
               parameters := parameters
               requestBody := requestBody
               responses := responses }

/-- The extraction options (`ExtractorOptions` of extractor.ts); each
excluded-path regular expression is modelled by its `test` predicate on
path strings, and defaults are resolved by the caller. -/
structure ExtractorOptions where
  excludeTags : List String
  excludePaths : List (String → Bool)
  excludeDeprecated : Bool
  originalSpec : Option Js

/-- `excludeTags.includes(tag)`: only string tags can match. -/
def jsIncludes (l : List String) (v : Js) : Bool :=
  match v with
  | Js.str s => l.contains s
  | _ => false

/-- `tags.some(tag => excludeTags.includes(tag))` on an array value. -/
def tagsSome (tags : Js) (excludeTags : List String) : Bool :=
  match tags with
  | Js.arr xs => xs.any (jsIncludes excludeTags)
  | _ => false

/-- The fixed canonical method order (`HTTP_METHODS`, extractor.ts
line 16). -/
def HTTP_METHODS : List String :=
  ["get", "post", "put", "patch", "delete", "options", "head"]

/-- The `for (const method of HTTP_METHODS)` loop of `extractEndpoints`
(extractor.ts lines 54-75). -/
def extractMethodsList (fuel : Nat) (opts : ExtractorOptions) (path : String)
    (pathItem : Js) (originalPathItem : Option Js) : List String → Option (List EndpointInfo)
  | [] => some []
  | method :: rest =>
    match jsGet pathItem method with
    | none => extractMethodsList fuel opts path pathItem originalPathItem rest
    | some operation =>
      if jsTruthy operation = false then
        extractMethodsList fuel opts path pathItem originalPathItem rest
      else if opts.excludeDeprecated && jsTruthyO (jsGet operation "deprecated") then
        extractMethodsList fuel opts path pathItem originalPathItem rest
      else if tagsSome (jsCoalesceV (jsGet operation "tags") (Js.arr [Js.str "default"]))
                opts.excludeTags then
        extractMethodsList fuel opts path pathItem originalPathItem rest
      else
        let originalOperation := jsOGet originalPathItem method
        match extractEndpoint fuel path method operation pathItem originalOperation
                opts.originalSpec with
        | none => none
        | some e =>
          match extractMethodsList fuel opts path pathItem originalPathItem rest with
          | none => none
          | some others => some (e :: others)

/-- The `for (const [path, pathItem] of Object.entries(paths))` loop of
`extractEndpoints` (extractor.ts lines 44-75). -/
def extractPathsList (fuel : Nat) (opts : ExtractorOptions) (originalPaths : Js) :
    List (String × Js) → Option (List EndpointInfo)
  | [] => some []
  | (path, pathItem) :: rest =>
    if jsTruthy pathItem = false then extractPathsList fuel opts originalPaths rest
    else if opts.excludePaths.any (fun t => t path) then
      extractPathsList fuel opts originalPaths rest
    else
      match extractMethodsList fuel opts path pathItem (jsGet originalPaths path)
              HTTP_METHODS with
      | none => none
      | some es =>
        match extractPathsList fuel opts originalPaths rest with
        | none => none
        | some others => some (es ++ others)

/-- The fields of an object value (`Object.entries`). -/
def jsFieldsOf (v : Js) : List (String × Js) :=
  match v with
  | Js.obj fs => fs
  | _ => []

/-- `extractEndpoints` (extractor.ts lines 32-78): iterate the path table
in document order, filter, and extract each retained operation. -/
def extractEndpoints (fuel : Nat) (spec : Js) (opts : ExtractorOptions) :
    Option (List EndpointInfo) :=
  let paths := jsCoalesceV (jsGet spec "paths") (Js.obj [])
  let originalPaths := jsCoalesceV (jsOGet opts.originalSpec "paths") (Js.obj [])
  extractPathsList fuel opts originalPaths (jsFieldsOf paths)

/-- One optional field of the object a simplified node turns back into. -/
def optField (k : String) (v : Option Js) : List (String × Js) :=
  match v with
  | some x => [(k, x)]
  | none => []

/-- The field list of the object a simplified node is at runtime, given
the already-converted `properties` and `items` members (keys in
literal-creation order; fields holding `undefined` read as absent). -/
def simplifiedFields (t : Js) (sn : Option String) (d e en : Option Js)
    (r : Option (List Js)) (pJs iJs : Option Js) : List (String × Js) :=
  ("type", t) ::
    (optField "schemaName" (sn.map Js.str) ++
     optField "description" d ++
     optField "example" e ++
     optField "enum" en ++
     optField "required" (r.map Js.arr) ++
     optField "properties" pJs ++
     optField "items" iJs)

mutual

/-- The JSON object a simplified node is at runtime: feeding a first-pass
output back into `simplifySchema` presents exactly these fields. -/
def simplifiedToJs : SimplifiedSchema → Js
  | .mk t sn d e en r p i =>
    Js.obj (simplifiedFields t sn d e en r
      (match p with | some l => some (Js.obj (simplifiedPropsToJs l)) | none => none)
      (match i with | some s => some (simplifiedToJs s) | none => none))

/-- The `properties` object of `simplifiedToJs`. -/
def simplifiedPropsToJs : List (String × SimplifiedSchema) → List (String × Js)
  | [] => []
  | (k, s) :: rest => (k, simplifiedToJs s) :: simplifiedPropsToJs rest

end

mutual

/-- A simplified tree with every recovered schema name removed. -/
def eraseNames : SimplifiedSchema → SimplifiedSchema
  | .mk t _ d e en r p i =>
    .mk t none d e en r
      (match p with | some l => some (eraseNamesProps l) | none => none)
      (match i with | some s => some (eraseNames s) | none => none)

/-- `eraseNames` on a property list. -/
def eraseNamesProps : List (String × SimplifiedSchema) → List (String × SimplifiedSchema)
  | [] => []
  | (k, s) :: rest => (k, eraseNames s) :: eraseNamesProps rest

end

mutual

/-- A full simplified tree: every node carries its `properties` and
`required` fields, a truthy type label, no null metadata, and an `items`
node only under an array type label — the shape every node simplified
from a present schema has. -/
def fullS : SimplifiedSchema → Bool
  | .mk t _ d e _ r p i =>
    jsTruthy t &&
    (match d with | some Js.null => false | _ => true) &&
    (match e with | some Js.null => false | _ => true) &&
    (match r with | some _ => true | none => false) &&
    (match p with | some l => fullProps l | none => false) &&
    (match i with | some s => typeHasArray t && fullS s | none => true)

/-- `fullS` on a property list. -/
def fullProps : List (String × SimplifiedSchema) → Bool
  | [] => true
  | (_, s) :: rest => fullS s && fullProps rest

end

/-- Whether a simplified node is exactly the absent-schema output
`{ type: 'unknown' }`. -/
def isUnknownNode : SimplifiedSchema → Bool
  | .mk t sn d e en r p i =>
    decide (t = Js.str "unknown") && sn.isNone && d.isNone && e.isNone &&
    en.isNone && r.isNone && p.isNone && i.isNone

mutual

/-- Every node of a simplified tree either carries defined `properties`
and `required` fields or is the absent-schema output. -/
def goodS : SimplifiedSchema → Bool
  | .mk t sn d e en r p i =>
    (r.isSome && p.isSome || isUnknownNode (.mk t sn d e en r p i)) &&
    (match p with | some l => goodProps l | none => true) &&
    (match i with | some s => goodS s | none => true)

/-- `goodS` on a property list. -/
def goodProps : List (String × SimplifiedSchema) → Bool
  | [] => true
  | (_, s) :: rest => goodS s && goodProps rest

end

/-- Concrete operation for the tag-exclusion claims: tagged both "a" and
"b". -/
def c1operation : Js :=
  Js.obj [("tags", Js.arr [Js.str "a", Js.str "b"]),
          ("responses", Js.obj [("200", Js.obj [("description", Js.str "ok")])])]

/-- Concrete one-path document holding `c1operation` on GET. -/
def c1spec : Js :=
  Js.obj [("paths", Js.obj [("/p", Js.obj [("get", c1operation)])])]

/-- Options excluding tag "a" only. -/
def c1opts : ExtractorOptions :=
  { excludeTags := ["a"], excludePaths := [], excludeDeprecated := true, originalSpec := none }

/-- A node with its own property "a" and an all-of branch redeclaring
"a". -/
def c2schema : Js :=
  Js.obj [("properties", Js.obj [("a", Js.obj [("type", Js.str "string")])]),
          ("allOf", Js.arr [Js.obj [("properties",
            Js.obj [("a", Js.obj [("type", Js.str "number")])])]])]

/-- A response table declaring only "201" and "302". -/
def c3responses : Js :=
  Js.obj [("201", Js.obj [("description", Js.str "Created")]),
          ("302", Js.obj [("description", Js.str "Found")])]

/-- An array schema of referenced "Pet" items. -/
def c4schema : Js :=
  Js.obj [("type", Js.str "array"),
          ("items", Js.obj [("$ref", Js.str "#/components/schemas/Pet")])]

/-- The first simplification of `c4schema`. -/
def c4out1 : SimplifiedSchema :=
  .mk (Js.str "array") (some "Pet[]") none none none (some []) (some [])
    (some (.mk (Js.str "unknown") (some "Pet") none none none (some []) (some []) none))

/-- A node whose `$ref` is the empty string. -/
def c5node : Js := Js.obj [("$ref", Js.str "")]

/-- A document whose "a" member is a plain string. -/
def c9doc : Js := Js.obj [("a", Js.str "hello")]

/-- A reference node pointing at "#/a". -/
def c9node : Js := Js.obj [("$ref", Js.str "#/a")]

/-- The property value contributed for key `k` by the *last* branch list
entry declaring it (later branches override earlier ones). -/
def lastPropHit (effs : List Eff) (k : String) : Option Js :=
  match effs with
  | [] => none
  | e :: es =>
    match lastPropHit es k with
    | some v => some v
    | none => jsObjGet (e.properties.getD []) k

/-- Flatten each element of a list with `g`, failing if any call fails. -/
def optMapWith (g : Js → Option Eff) : List Js → Option (List Eff)
  | [] => some []
  | b :: rest =>
    match g b, optMapWith g rest with
    | some e, some es => some (e :: es)
    | _, _ => none

/-- The effective views of a list of composition branches. -/
def branchEffs (fuel : Nat) (spec : Option Js) (branches : List Js) : Option (List Eff) :=
  optMapWith (fun b => getEffectiveSchema fuel b spec) branches

/-- A concrete array schema with referenced "Pet" items, for the C6
witness. -/
def c6schema : Js :=
  Js.obj [("type", Js.str "array"),
          ("items", Js.obj [("$ref", Js.str "#/definitions/Pet")])]

/-- The single all-of branch of `c2schema`. -/
def c2branch : Js :=
  Js.obj [("properties", Js.obj [("a", Js.obj [("type", Js.str "number")])])]

/-- The effective view of `c2branch`. -/
def c2brancheff : Eff :=
  { properties := some [("a", Js.obj [("type", Js.str "number")])]
    type := none, enum := none, items := none, required := some [] }

/-- The effective view of `c2schema`. -/
def c2eff : Eff :=
  { properties := some [("a", Js.obj [("type", Js.str "number")])]
    type := none, enum := none, items := none, required := some [] }

/-- The second-pass simplification of `c4out1`. -/
def c4out2 : SimplifiedSchema :=
  .mk (Js.str "array") none none none none (some []) (some [])
    (some (.mk (Js.str "unknown") none none none none (some []) (some []) none))

/-- An object schema with a null-valued property entry. -/
def c10schema : Js :=
  Js.obj [("type", Js.str "object"), ("properties", Js.obj [("a", Js.null)])]

/-- The simplification of `c10schema`. -/
def c10out : SimplifiedSchema :=
  .mk (Js.str "object") none none none none (some []) (some [("a", unknownSchema)]) none

/-- The second-pass simplification of `c10out`: the nested absent-schema
node, fed back as a truthy one-field object of type "unknown", gains empty
`required` and `properties` tables. -/
def c4refill : SimplifiedSchema :=
  .mk (Js.str "object") none none none none (some [])
    (some [("a", .mk (Js.str "unknown") none none none none (some []) (some []) none)]) none

/-- Concrete Swagger 2.0 body schema for the C7 scenario. -/
def c7schema : Js := Js.obj [("type", Js.str "object")]

/-- Concrete dereferenced body parameter for the C7 scenario. -/
def c7bodyParam : Js :=
  Js.obj [("name", Js.str "pet"), ("in", Js.str "body"),
          ("required", Js.bool true), ("schema", c7schema)]

/-- Concrete dereferenced operation (no modern request body). -/
def c7operation : Js := Js.obj [("parameters", Js.arr [c7bodyParam])]

/-- Original body parameter still carrying its reference. -/
def c7origBP : Js :=
  Js.obj [("in", Js.str "body"),
          ("schema", Js.obj [("$ref", Js.str "#/definitions/Pet")])]

/-- Original operation for the C7 scenario. -/
def c7origOp : Js := Js.obj [("parameters", Js.arr [c7origBP])]

/-- The request-body record extracted in the C7 scenario. -/
def c7rb : RequestBodyInfo :=
  { required := Js.bool true
    contentType := "application/json"
    schema := .mk (Js.str "object") (some "Pet") none none none (some []) (some []) none
    schemaName := some "Pet"
    exampleV := none }

/-- Concrete modern content table with JSON present (C8 scenario). -/
def c8content : Js :=
  Js.obj [("text/plain", Js.obj [("schema", Js.obj [("type", Js.str "string")])]),
          ("application/json", Js.obj [("schema", Js.obj [("type", Js.str "object")])])]

/-- Concrete modern request-body object for the C8 scenario. -/
def c8body : Js := Js.obj [("required", Js.bool true), ("content", c8content)]

/-- Concrete operation declaring a modern request body. -/
def c8operation : Js := Js.obj [("requestBody", c8body)]

/-- Concrete content table without JSON (first declared type wins). -/
def c8contentAlt : Js :=
  Js.obj [("text/plain", Js.obj [("schema", Js.obj [("type", Js.str "string")])])]

/-- Concrete modern request-body object without JSON content. -/
def c8bodyAlt : Js := Js.obj [("content", c8contentAlt)]

/-- Request-body record extracted from `c8body`. -/
def c8rb : RequestBodyInfo :=
  { required := Js.bool true
    contentType := "application/json"
    schema := .mk (Js.str "object") none none none none (some []) (some []) none
    schemaName := none
    exampleV := none }

/-- Request-body record extracted from `c8bodyAlt`. -/
def c8rbAlt : RequestBodyInfo :=
  { required := Js.bool false
    contentType := "text/plain"
    schema := .mk (Js.str "string") none none none none (some []) (some []) none
    schemaName := none
    exampleV := none }

/-- One-step unfolding of `simplifiedToJs` on a constructor. -/
theorem simplifiedToJs_mk (t : Js) (sn : Option String) (d e en : Option Js)
    (r : Option (List Js)) (p : Option (List (String × SimplifiedSchema)))
    (i : Option SimplifiedSchema) :
    simplifiedToJs (.mk t sn d e en r p i) =
      Js.obj (simplifiedFields t sn d e en r
        (p.map (fun l => Js.obj (simplifiedPropsToJs l))) (i.map simplifiedToJs)) := by
  cases p <;> cases i <;> rfl

/-- Appending the marker always yields a marker suffix. -/
theorem strEndsWith_append (s t : String) : strEndsWith (s ++ t) t = true := by
  unfold strEndsWith
  rw [String.data_append, List.isSuffixOf_iff_suffix]
  exact List.suffix_append _ _

/-- Every record produced by the response loop carries one of the visited
status codes. -/
theorem extractResponsesList_mem (fuel : Nat) (responses originalResponses originalSpec : Option Js) :
    ∀ codes out, extractResponsesList fuel responses originalResponses originalSpec codes = some out →
    ∀ x ∈ out, x.statusCode ∈ codes := by
  intro codes
  induction codes with
  | nil =>
    intro out h x hx
    simp only [extractResponsesList] at h
    cases h
    simp at hx
  | cons c rest ih =>
    intro out h x hx
    simp only [extractResponsesList] at h
    split at h
    · exact List.mem_cons_of_mem c (ih out h x hx)
    · split at h
      · exact absurd h (by simp)
      · split at h
        · exact absurd h (by simp)
        · split at h
          · exact absurd h (by simp)
          · rename_i others hrest
            cases h
            rcases List.mem_cons.mp hx with hx1 | hx2
            · subst hx1
              exact List.mem_cons_self c rest
            · exact List.mem_cons_of_mem c (ih others hrest x hx2)

/-- A failed object guard before the final segment aborts the walk. -/
theorem ptrWalk_fail (part : String) (rest : List String) :
    ∀ pre start v, ptrWalk start pre = some v →
    (match v with | some cv => jsIsTruthyObject cv | none => false) = false →
    ptrWalk start (pre ++ part :: rest) = none := by
  intro pre
  induction pre with
  | nil =>
    intro start v h hv
    simp only [ptrWalk] at h
    cases h
    cases start with
    | none => simp [ptrWalk]
    | some c => simp only at hv; simp [ptrWalk, hv]
  | cons p ps ih =>
    intro start v h hv
    cases start with
    | none => simp [ptrWalk] at h
    | some c =>
      simp only [ptrWalk] at h ⊢
      split at h
      · rename_i hobj
        simp only [List.cons_append, ptrWalk, hobj, if_true]
        exact ih (jsStep c p) v h hv
      · exact absurd h (by simp)

/-- Claim C9 (amended): the resolver returns the reference node unchanged
when the document is absent, when the reference does not start with the
in-document marker, when a pointer segment before the final one does not
yield an object, or when the walk ends on a falsy value; a walk ending on
a truthy value continues resolution recursively on that value. -/
theorem C9_resolveRef (fuel : Nat) (schema doc : Js) (ref : String)
    (htr : jsTruthy schema = true)
    (href : jsGet schema "$ref" = some (Js.str ref)) :
    (resolveRef (fuel+1) schema none = some schema) ∧
    (strStartsWith ref "#/" = false → resolveRef (fuel+1) schema (some doc) = some schema) ∧
    (∀ pre part rest v, (splitChar (Char.ofNat 47) ref).drop 1 = pre ++ part :: rest →
       ptrWalk (some doc) pre = some v →
       (match v with | some cv => jsIsTruthyObject cv | none => false) = false →
       resolveRef (fuel+1) schema (some doc) = some schema) ∧
    (∀ v, strStartsWith ref "#/" = true →
       ptrWalk (some doc) ((splitChar (Char.ofNat 47) ref).drop 1) = some v →
       jsTruthyO v = false → resolveRef (fuel+1) schema (some doc) = some schema) ∧
    (∀ c, strStartsWith ref "#/" = true →
       ptrWalk (some doc) ((splitChar (Char.ofNat 47) ref).drop 1) = some (some c) →
       jsTruthy c = true →
       resolveRef (fuel+1) schema (some doc) = resolveRef fuel c (some doc)) := by
  refine ⟨?_, ?_, ?_, ?_, ?_⟩
  · simp [resolveRef, htr]
  · intro hs
    simp [resolveRef, htr, href, hs]
  · intro pre part rest v hsplit hwalk hv
    have hfail := ptrWalk_fail part rest pre (some doc) v hwalk hv
    rw [← hsplit] at hfail
    rw [List.drop_one] at hfail
    cases hss : strStartsWith ref "#/" with
    | false => simp [resolveRef, htr, href, hss]
    | true => simp [resolveRef, htr, href, hss, hfail]
  · intro v hss hwalk hv
    rw [List.drop_one] at hwalk
    cases v with
    | none => simp [resolveRef, htr, href, hss, hwalk]
    | some c =>
      simp only [jsTruthyO] at hv
      simp [resolveRef, htr, href, hss, hwalk, hv]
  · intro c hss hwalk hc
    rw [List.drop_one] at hwalk
    simp [resolveRef, htr, href, hss, hwalk, hc]

/-- Witness for C9_resolveRef at a concrete reference node. -/
theorem C9_resolveRef_witness : resolveRef 6 c9node none = some c9node :=
  (C9_resolveRef 5 c9node c9doc "#/a" rfl rfl).1

/-- Counterexample to claim C9 as stated: the final segment "a" of "#/a"
looks up the non-object string "hello", yet the resolver returns that
string rather than the original reference node. -/
theorem C9_counterexample :
    jsStep c9doc "a" = some (Js.str "hello") ∧
    jsIsTruthyObject (Js.str "hello") = false ∧
    resolveRef 5 c9node (some c9doc) = some (Js.str "hello") ∧
    Js.str "hello" ≠ c9node :=
  ⟨rfl, rfl, rfl, by decide⟩

/-- Claim C3: a response is recorded only for status codes in the fixed
allow-list, and the table declaring only "201" and "302" yields exactly
the "201" entry. -/
theorem C3_response_allowlist :
    (∀ fuel responses originalResponses originalSpec out,
       extractResponses fuel responses originalResponses originalSpec = some out →
       ∀ x ∈ out, x.statusCode ∈ importantCodes) ∧
    extractResponses 10 (some c3responses) none none =
      some [{ statusCode := "201", description := Js.str "Created", schema := none,
              schemaName := none, exampleV := none }] := by
  constructor
  · intro fuel r o s out h x hx
    exact extractResponsesList_mem fuel r o s importantCodes out h x hx
  · rfl

/-- Witness for C3_response_allowlist: the produced "201" entry indeed
carries an allow-listed code. -/
theorem C3_response_allowlist_witness : ("201" : String) ∈ importantCodes :=
  C3_response_allowlist.1 10 (some c3responses) none none
    [{ statusCode := "201", description := Js.str "Created", schema := none,
       schemaName := none, exampleV := none }] rfl
    { statusCode := "201", description := Js.str "Created", schema := none,
      schemaName := none, exampleV := none } (List.mem_singleton.mpr rfl)

/-- Rule 1 of name recovery: a truthy string reference wins immediately. -/
theorem esn_direct_ref (fuel : Nat) (schema : Js) (r : String)
    (href : jsGet schema "$ref" = some (Js.str r)) (hne : r ≠ "") :
    extractSchemaName (fuel+1) schema = some (some (lastSeg r)) := by
  have hobj : jsTruthy schema = true := by
    cases schema <;> simp_all [jsGet, jsTruthy]
  simp [extractSchemaName, hobj, esnRefName, href, hne]

/-- Claim C5 (amended): a node carrying a nonempty direct reference string
recovers the final path segment of that reference. -/
theorem C5_ref_last_segment (fuel : Nat) (schema : Js) (r : String)
    (href : jsGet schema "$ref" = some (Js.str r)) (hne : r ≠ "") :
    extractSchemaName (fuel+1) schema = some (some (lastSeg r)) :=
  esn_direct_ref fuel schema r href hne

/-- Witness for C5_ref_last_segment at a concrete referenced node. -/
theorem C5_ref_last_segment_witness :
    extractSchemaName 4 (Js.obj [("$ref", Js.str "#/definitions/Pet")]) =
      some (some (lastSeg "#/definitions/Pet")) :=
  C5_ref_last_segment 3 (Js.obj [("$ref", Js.str "#/definitions/Pet")]) "#/definitions/Pet"
    rfl (by decide)

/-- Counterexample to claim C5 as stated: a node whose reference string is
empty recovers no name at all, not the (empty) final path segment. -/
theorem C5_counterexample :
    jsGet c5node "$ref" = some (Js.str "") ∧
    lastSeg "" = "" ∧
    extractSchemaName 5 c5node = some none ∧
    extractSchemaName 5 c5node ≠ some (some (lastSeg "")) :=
  ⟨rfl, rfl, rfl, by decide⟩

/-- Claim C6: an array node whose earlier name rules fail and whose item
recovers name `n` gets `n` with exactly one array marker: appended when
absent, reused when already present. -/
theorem C6_array_suffix (fuel : Nat) (schema it : Js) (n : String)
    (h1 : esnRefName schema = none)
    (h2 : compositeItems schema = [])
    (h3 : jsGet schema "type" = some (Js.str "array"))
    (h4 : jsGet schema "items" = some it)
    (h5 : jsTruthy it = true)
    (h6 : extractSchemaName fuel it = some (some n))
    (h7 : n ≠ "") :
    ∃ m, extractSchemaName (fuel+1) schema = some (some m) ∧
      strEndsWith m "[]" = true ∧
      (strEndsWith n "[]" = true → m = n) ∧
      (strEndsWith n "[]" = false → m = n ++ "[]") := by
  have hobj : jsTruthy schema = true := by
    cases schema <;> simp_all [jsGet, jsTruthy]
  refine ⟨if strEndsWith n "[]" then n else n ++ "[]", ?_, ?_, ?_, ?_⟩
  · simp [extractSchemaName, hobj, h1, h2, esnListWith, h3, h4, h5, h6, h7]
  · cases hEnds : strEndsWith n "[]" with
    | true => simp [hEnds]
    | false => simp [hEnds, strEndsWith_append]
  · intro hh; simp [hh]
  · intro hh; simp [hh]

/-- Witness for C6_array_suffix at `c6schema`. -/
theorem C6_array_suffix_witness :
    ∃ m, extractSchemaName 4 c6schema = some (some m) ∧
      strEndsWith m "[]" = true ∧
      (strEndsWith "Pet" "[]" = true → m = "Pet") ∧
      (strEndsWith "Pet" "[]" = false → m = "Pet" ++ "[]") :=
  C6_array_suffix 3 c6schema (Js.obj [("$ref", Js.str "#/definitions/Pet")]) "Pet"
    rfl rfl rfl rfl rfl rfl (by decide)

/-- Lookup distributes over list append, first list first. -/
theorem jsObjGet_append (l1 l2 : List (String × Js)) (k : String) :
    jsObjGet (l1 ++ l2) k =
      match jsObjGet l1 k with
      | some v => some v
      | none => jsObjGet l2 k := by
  induction l1 with
  | nil => simp [jsObjGet]
  | cons p rest ih =>
    obtain ⟨k1, v1⟩ := p
    by_cases hk : k1 = k
    · simp [jsObjGet, hk]
    · simp [jsObjGet, hk, ih]

/-- Lookup in the override-mapped first spread component. -/
theorem jsObjGet_mapOverride (a b : List (String × Js)) (k : String) :
    jsObjGet (a.map (fun p => match jsObjGet b p.1 with
                              | some v => (p.1, v)
                              | none => p)) k =
      match jsObjGet a k with
      | some v0 => some ((jsObjGet b k).getD v0)
      | none => none := by
  induction a with
  | nil => simp [jsObjGet]
  | cons p rest ih =>
    obtain ⟨k1, v1⟩ := p
    by_cases hk : k1 = k
    · subst hk
      cases hb : jsObjGet b k1 <;> simp [jsObjGet, hb]
    · cases hb : jsObjGet b k1 <;> simp [jsObjGet, hb, hk, ih]

/-- Lookup in the filtered second spread component. -/
theorem jsObjGet_filterNone (a b : List (String × Js)) (k : String) :
    jsObjGet (b.filter (fun p => (jsObjGet a p.1).isNone)) k =
      if (jsObjGet a k).isNone then jsObjGet b k else none := by
  induction b with
  | nil => simp [jsObjGet]
  | cons p rest ih =>
    obtain ⟨k2, v2⟩ := p
    by_cases hk : k2 = k
    · subst hk
      cases ha : (jsObjGet a k2).isNone <;>
        simp [jsObjGet, List.filter, ha, ih]
    · cases ha : (jsObjGet a k2).isNone <;>
        simp [jsObjGet, List.filter, ha, hk, ih]

/-- Lookup in an object spread `{ ...a, ...b }`: `b` wins on collision. -/
theorem jsObjGet_spreadMerge (a b : List (String × Js)) (k : String) :
    jsObjGet (spreadMerge a b) k =
      match jsObjGet b k with
      | some v => some v
      | none => jsObjGet a k := by
  unfold spreadMerge
  rw [jsObjGet_append, jsObjGet_mapOverride, jsObjGet_filterNone]
  cases ha : jsObjGet a k <;> cases hb : jsObjGet b k <;> simp [ha, hb]

/-- Property lookup through the branch-merging loop: the last branch
declaring a key wins, and the accumulator is only consulted when no
branch declares it. -/
theorem effMergeListWith_props (g : Js → Option Eff) :
    ∀ (subs : List Js) (acc out : Eff) (effs : List Eff),
      effMergeListWith g subs acc = some out →
      optMapWith g subs = some effs →
      ∀ k, jsObjGet (out.properties.getD []) k =
        match lastPropHit effs k with
        | some v => some v
        | none => jsObjGet (acc.properties.getD []) k := by
  intro subs
  induction subs with
  | nil =>
    intro acc out effs h hm k
    simp only [effMergeListWith] at h
    cases h
    simp only [optMapWith] at hm
    cases hm
    simp [lastPropHit]
  | cons sub rest ih =>
    intro acc out effs h hm k
    simp only [effMergeListWith] at h
    cases hg : g sub with
    | none => rw [hg] at h; exact absurd h (by simp)
    | some se =>
      rw [hg] at h
      simp only [optMapWith, hg] at hm
      cases hms : optMapWith g rest with
      | none => rw [hms] at hm; exact absurd hm (by simp)
      | some effs2 =>
        rw [hms] at hm
        simp only [Option.some.injEq] at hm
        subst hm
        rw [ih (mergeEff acc se) out effs2 h hms k]
        cases hl : lastPropHit effs2 k with
        | some v => simp [lastPropHit, hl]
        | none =>
          simp only [lastPropHit, hl, mergeEff, Option.getD_some]
          rw [jsObjGet_spreadMerge]

/-- Claim C2 (amended): in the flattened view of an all-of node, a key maps
to the value from the last composition branch declaring it; only keys no
branch declares fall back to the node's own (reference-resolved)
properties — branches override the node's own properties, not the other
way round. -/
theorem C2_allOf_merge (fuel : Nat) (schema : Js) (spec : Option Js) (resolved : Js)
    (subs : List Js) (effs : List Eff) (eff : Eff)
    (htr : jsTruthy schema = true)
    (hres : resolveRef fuel schema spec = some resolved)
    (hall : jsGet resolved "allOf" = some (Js.arr subs))
    (heffs : branchEffs fuel spec subs = some effs)
    (heff : getEffectiveSchema (fuel+1) schema spec = some eff) :
    ∀ k, jsObjGet (eff.properties.getD []) k =
      match lastPropHit effs k with
      | some v => some v
      | none => jsObjGet (spreadFields (jsGet resolved "properties")) k := by
  intro k
  simp only [getEffectiveSchema, htr, hres, hall] at heff
  rw [if_neg (by simp)] at heff
  have := effMergeListWith_props (fun s => getEffectiveSchema fuel s spec) subs
    { properties := some (spreadFields (jsGet resolved "properties"))
      type := jsGet resolved "type"
      enum := jsGet resolved "enum"
      items := jsGet resolved "items"
      required := some (reqList (jsGet resolved "required")) } eff effs heff heffs k
  rw [this]
  cases lastPropHit effs k <;> rfl

/-- Witness for C2_allOf_merge at `c2schema` and key "a". -/
theorem C2_allOf_merge_witness :
    jsObjGet (c2eff.properties.getD []) "a" =
      match lastPropHit [c2brancheff] "a" with
      | some v => some v
      | none => jsObjGet (spreadFields (jsGet c2schema "properties")) "a" :=
  C2_allOf_merge 9 c2schema none c2schema [c2branch] [c2brancheff] c2eff
    rfl rfl rfl rfl rfl "a"

/-- Counterexample to claim C2 as stated: the node's own direct property
"a" (a string-typed schema) is overridden by the branch's "a" (a
number-typed schema) in the flattened map. -/
theorem C2_counterexample :
    jsObjGet (spreadFields (jsGet c2schema "properties")) "a" =
      some (Js.obj [("type", Js.str "string")]) ∧
    (getEffectiveSchema 10 c2schema none).bind
        (fun e => jsObjGet (e.properties.getD []) "a") =
      some (Js.obj [("type", Js.str "number")]) ∧
    Js.obj [("type", Js.str "number")] ≠ Js.obj [("type", Js.str "string")] :=
  ⟨rfl, rfl, by decide⟩

/-- The branch-merging loop keeps `properties` and `required` defined. -/
theorem effMergeListWith_defined (g : Js → Option Eff) :
    ∀ (subs : List Js) (acc out : Eff), effMergeListWith g subs acc = some out →
      acc.properties.isSome = true → acc.required.isSome = true →
      out.properties.isSome = true ∧ out.required.isSome = true := by
  intro subs
  induction subs with
  | nil =>
    intro acc out h hp hr
    simp only [effMergeListWith] at h
    cases h
    exact ⟨hp, hr⟩
  | cons sub rest ih =>
    intro acc out h hp hr
    simp only [effMergeListWith] at h
    cases hg : g sub with
    | none => rw [hg] at h; simp at h
    | some se =>
      rw [hg] at h
      refine ih (mergeEff acc se) out h (by simp [mergeEff]) ?_
      simp only [mergeEff]
      cases se.required with
      | some r => simp
      | none => simpa using hr
/-- The effective view of a truthy node always has its `properties` and
`required` fields defined. -/
theorem getEff_defined (fuel : Nat) (schema : Js) (spec : Option Js) (eff : Eff)
    (htr : jsTruthy schema = true)
    (h : getEffectiveSchema fuel schema spec = some eff) :
    eff.properties.isSome = true ∧ eff.required.isSome = true := by
  cases fuel with
  | zero => simp [getEffectiveSchema] at h
  | succ f =>
    rw [getEffectiveSchema] at h
    rw [htr, if_neg (by simp)] at h
    cases hres : resolveRef f schema spec with
    | none => rw [hres] at h; simp at h
    | some resolved =>
      rw [hres] at h
      simp only [] at h
      cases hall : jsGet resolved "allOf" with
      | none =>
        rw [hall] at h
        cases h
        exact ⟨by simp, by simp⟩
      | some av =>
        rw [hall] at h
        cases av with
        | arr subs => exact effMergeListWith_defined _ _ _ _ h (by simp) (by simp)
        | null => cases h; exact ⟨by simp, by simp⟩
        | bool b => cases h; exact ⟨by simp, by simp⟩
        | num n => cases h; exact ⟨by simp, by simp⟩
        | str s => cases h; exact ⟨by simp, by simp⟩
        | obj fs => cases h; exact ⟨by simp, by simp⟩

/-- The property loop yields a good property list when the recursive
simplification always yields good nodes. -/
theorem simplifyPropsWith_good
    (sf : Option Js → Option Js → Option String → Option SimplifiedSchema)
    (en : Option Js → Option Js → Option (Option String)) (eo : Option Eff)
    (hsf : ∀ a b c s, sf a b c = some s → goodS s = true) :
    ∀ l out, simplifyPropsWith sf en eo l = some out → goodProps out = true := by
  intro l
  induction l with
  | nil =>
    intro out h
    simp only [simplifyPropsWith] at h
    cases h
    rfl
  | cons kv rest ih =>
    intro out h
    obtain ⟨key, prop⟩ := kv
    simp only [simplifyPropsWith] at h
    cases hen : en ((eo.bind Eff.properties).bind fun ps => jsObjGet ps key) (some prop) with
    | none => rw [hen] at h; simp at h
    | some propName =>
      simp only [hen] at h
      cases hs : sf (some prop) ((eo.bind Eff.properties).bind fun ps => jsObjGet ps key)
          propName with
      | none => simp only [hs] at h; exact Option.noConfusion h
      | some s =>
        simp only [hs] at h
        cases hrest : simplifyPropsWith sf en eo rest with
        | none => simp only [hrest] at h; exact Option.noConfusion h
        | some others =>
          simp only [hrest, Option.some.injEq] at h
          subst h
          simp only [goodProps, Bool.and_eq_true]
          exact ⟨hsf _ _ _ _ hs, ih others hrest⟩

/-- The items step yields a good node when the recursive simplification
always does. -/
theorem simplifyItemsWith_good
    (sf : Option Js → Option Js → Option String → Option SimplifiedSchema)
    (en : Option Js → Option Js → Option (Option String)) (typeJs : Js) (eff : Eff)
    (schema : Js) (origO : Option Js) (effOrig : Option Eff)
    (hsf : ∀ a b c s, sf a b c = some s → goodS s = true) :
    ∀ res, simplifyItemsWith sf en typeJs eff schema origO effOrig = some res →
      (match res with | some s => goodS s | none => true) = true := by
  intro res h
  simp only [simplifyItemsWith] at h
  split at h
  · split at h
    · exact Option.noConfusion h
    · rename_i itemName hen
      cases hsi : sf (jsOrO eff.items (jsGet schema "items"))
          (jsOrO (effOrig.bind Eff.items) (jsOGet origO "items")) itemName with
      | none => rw [hsi] at h; exact Option.noConfusion h
      | some si =>
        rw [hsi] at h
        simp at h
        subst h
        simpa using hsf _ _ _ _ hsi
  · cases h
    rfl

/-- Claim C10 helper: every simplification result is a good tree, and a
present input makes the root carry defined `properties` and `required`. -/
theorem simplify_good : ∀ (fuel : Nat) (schemaO origO : Option Js) (nameO : Option String)
    (spec : Option Js) (out : SimplifiedSchema),
    simplifySchema fuel schemaO origO nameO spec = some out →
    goodS out = true ∧
      (jsTruthyO schemaO = true → out.properties.isSome = true ∧ out.required.isSome = true) := by
  intro fuel
  induction fuel with
  | zero =>
    intro so oo no sp out h
    simp only [simplifySchema] at h
    exact Option.noConfusion h
  | succ f ih =>
    intro so oo no sp out h
    cases so with
    | none =>
      simp only [simplifySchema] at h
      cases h
      exact ⟨rfl, fun ht => absurd ht (by simp [jsTruthyO])⟩
    | some schema =>
      cases htr : jsTruthy schema with
      | false =>
        simp only [simplifySchema, htr] at h
        cases h
        refine ⟨rfl, fun ht => ?_⟩
        rw [jsTruthyO, htr] at ht
        exact Bool.noConfusion ht
      | true =>
        simp only [simplifySchema, htr] at h
        rw [if_neg (by simp)] at h
        cases hname : (match no with
                       | some n => some (some n)
                       | none => esnChain f oo (some schema)) with
        | none => rw [hname] at h; exact Option.noConfusion h
        | some rn =>
          simp only [hname] at h
          cases heff : getEffectiveSchema f schema sp with
          | none => rw [heff] at h; exact Option.noConfusion h
          | some eff =>
            simp only [heff] at h
            cases heo : (match oo with
                         | some o =>
                           if jsTruthy o then (getEffectiveSchema f o sp).map some
                           else some none
                         | none => some none) with
            | none => rw [heo] at h; exact Option.noConfusion h
            | some effOrig =>
              simp only [heo] at h
              obtain ⟨hps, hrs⟩ := getEff_defined f schema sp eff htr heff
              cases hp : eff.properties with
              | none => rw [hp] at hps; exact Bool.noConfusion hps
              | some plist =>
                simp only [hp] at h
                cases hsp : simplifyPropsWith (fun a b c => simplifySchema f a b c sp)
                    (fun a b => esnChain f a b) effOrig plist with
                | none => simp only [hsp] at h; exact Option.noConfusion h
                | some propsList =>
                  simp only [hsp, Option.map_some'] at h
                  cases hit : simplifyItemsWith (fun a b c => simplifySchema f a b c sp)
                      (fun a b => esnChain f a b) (effType eff) eff schema oo effOrig with
                  | none => rw [hit] at h; exact Option.noConfusion h
                  | some itemsResult =>
                    simp only [hit, Option.some.injEq] at h
                    subst h
                    have hgood : goodProps propsList = true :=
                      simplifyPropsWith_good _ _ _
                        (fun a b c s hs => (ih a b c sp s hs).1) plist propsList hsp
                    have hitems := simplifyItemsWith_good _ _ (effType eff) eff schema oo effOrig
                        (fun a b c s hs => (ih a b c sp s hs).1) itemsResult hit
                    constructor
                    · rw [goodS.eq_def]
                      simp only [Bool.and_eq_true, Bool.or_eq_true]
                      refine ⟨⟨Or.inl ⟨hrs, rfl⟩, hgood⟩, ?_⟩
                      cases itemsResult with
                      | none => rfl
                      | some si => simpa using hitems
                    · intro _
                      exact ⟨rfl, hrs⟩

/-- A re-injected simplified node is an object, hence truthy. -/
theorem toJs_truthy (P : SimplifiedSchema) : jsTruthy (simplifiedToJs P) = true := by
  cases P
  rw [simplifiedToJs_mk]
  rfl

/-- The `type` field of a re-injected field list. -/
theorem sfields_get_type (t : Js) (sn : Option String) (d e en : Option Js)
    (r : Option (List Js)) (pJs iJs : Option Js) :
    jsObjGet (simplifiedFields t sn d e en r pJs iJs) "type" = some t := by
  simp [simplifiedFields, jsObjGet]

/-- A re-injected field list holds no key outside its eight field names. -/
theorem sfields_get_other (t : Js) (sn : Option String) (d e en : Option Js)
    (r : Option (List Js)) (pJs iJs : Option Js) (k : String)
    (h1 : ¬ "type" = k) (h2 : ¬ "schemaName" = k) (h3 : ¬ "description" = k)
    (h4 : ¬ "example" = k) (h5 : ¬ "enum" = k) (h6 : ¬ "required" = k)
    (h7 : ¬ "properties" = k) (h8 : ¬ "items" = k) :
    jsObjGet (simplifiedFields t sn d e en r pJs iJs) k = none := by
  cases sn <;> cases d <;> cases e <;> cases en <;> cases r <;> cases pJs <;> cases iJs <;>
    simp [simplifiedFields, optField, jsObjGet, h1, h2, h3, h4, h5, h6, h7, h8]

/-- The `description` field of a re-injected field list. -/
theorem sfields_get_description (t : Js) (sn : Option String) (d e en : Option Js)
    (r : Option (List Js)) (pJs iJs : Option Js) :
    jsObjGet (simplifiedFields t sn d e en r pJs iJs) "description" = d := by
  cases sn <;> cases d <;> cases e <;> cases en <;> cases r <;> cases pJs <;> cases iJs <;>
    simp [simplifiedFields, optField, jsObjGet]

/-- The `example` field of a re-injected field list. -/
theorem sfields_get_example (t : Js) (sn : Option String) (d e en : Option Js)
    (r : Option (List Js)) (pJs iJs : Option Js) :
    jsObjGet (simplifiedFields t sn d e en r pJs iJs) "example" = e := by
  cases sn <;> cases d <;> cases e <;> cases en <;> cases r <;> cases pJs <;> cases iJs <;>
    simp [simplifiedFields, optField, jsObjGet]

/-- The `enum` field of a re-injected field list. -/
theorem sfields_get_enum (t : Js) (sn : Option String) (d e en : Option Js)
    (r : Option (List Js)) (pJs iJs : Option Js) :
    jsObjGet (simplifiedFields t sn d e en r pJs iJs) "enum" = en := by
  cases sn <;> cases d <;> cases e <;> cases en <;> cases r <;> cases pJs <;> cases iJs <;>
    simp [simplifiedFields, optField, jsObjGet]

/-- The `required` field of a re-injected field list. -/
theorem sfields_get_required (t : Js) (sn : Option String) (d e en : Option Js)
    (r : Option (List Js)) (pJs iJs : Option Js) :
    jsObjGet (simplifiedFields t sn d e en r pJs iJs) "required" = r.map Js.arr := by
  cases sn <;> cases d <;> cases e <;> cases en <;> cases r <;> cases pJs <;> cases iJs <;>
    simp [simplifiedFields, optField, jsObjGet]

/-- The `properties` field of a re-injected field list. -/
theorem sfields_get_properties (t : Js) (sn : Option String) (d e en : Option Js)
    (r : Option (List Js)) (pJs iJs : Option Js) :
    jsObjGet (simplifiedFields t sn d e en r pJs iJs) "properties" = pJs := by
  cases sn <;> cases d <;> cases e <;> cases en <;> cases r <;> cases pJs <;> cases iJs <;>
    simp [simplifiedFields, optField, jsObjGet]

/-- The `items` field of a re-injected field list. -/
theorem sfields_get_items (t : Js) (sn : Option String) (d e en : Option Js)
    (r : Option (List Js)) (pJs iJs : Option Js) :
    jsObjGet (simplifiedFields t sn d e en r pJs iJs) "items" = iJs := by
  cases sn <;> cases d <;> cases e <;> cases en <;> cases r <;> cases pJs <;> cases iJs <;>
    simp [simplifiedFields, optField, jsObjGet]

/-- Name recovery finds nothing on a re-injected simplified node: it has
no reference, no composition branches, and its item chain is itself
re-injected. -/
theorem esn_toJs : ∀ (fuel : Nat) (P : SimplifiedSchema) (r : Option String),
    extractSchemaName fuel (simplifiedToJs P) = some r → r = none := by
  intro fuel
  induction fuel with
  | zero =>
    intro P r h
    simp [extractSchemaName] at h
  | succ f ih =>
    intro P r h
    obtain ⟨t, sn, d, e, en, rq, p, i⟩ := P
    rw [simplifiedToJs_mk] at h
    have href := sfields_get_other t sn d e en rq
      (p.map (fun l => Js.obj (simplifiedPropsToJs l))) (i.map simplifiedToJs) "$ref"
      (by decide) (by decide) (by decide) (by decide) (by decide) (by decide) (by decide)
      (by decide)
    have hallOf := sfields_get_other t sn d e en rq
      (p.map (fun l => Js.obj (simplifiedPropsToJs l))) (i.map simplifiedToJs) "allOf"
      (by decide) (by decide) (by decide) (by decide) (by decide) (by decide) (by decide)
      (by decide)
    have hanyOf := sfields_get_other t sn d e en rq
      (p.map (fun l => Js.obj (simplifiedPropsToJs l))) (i.map simplifiedToJs) "anyOf"
      (by decide) (by decide) (by decide) (by decide) (by decide) (by decide) (by decide)
      (by decide)
    have honeOf := sfields_get_other t sn d e en rq
      (p.map (fun l => Js.obj (simplifiedPropsToJs l))) (i.map simplifiedToJs) "oneOf"
      (by decide) (by decide) (by decide) (by decide) (by decide) (by decide) (by decide)
      (by decide)
    simp only [extractSchemaName, esnRefName, compositeItems, jsGet,
      href, hallOf, hanyOf, honeOf, sfields_get_type, sfields_get_items,
      esnListWith] at h
    rw [if_neg (by simp [jsTruthy])] at h
    cases t with
    | str ts =>
      cases i with
      | none => simp only [Option.map_none'] at h; simpa using h.symm
      | some Q =>
        simp only [Option.map_some'] at h
        by_cases hts : ts = "array"
        · rw [hts] at h
          simp only [toJs_truthy] at h
          rw [if_pos (by simp)] at h
          cases hq : extractSchemaName f (simplifiedToJs Q) with
          | none => rw [hq] at h; exact Option.noConfusion h
          | some r2 =>
            rw [hq] at h
            have := ih Q r2 hq
            subst this
            simpa using h.symm
        · rw [if_neg (by simp [hts])] at h
          simpa using h.symm
    | null => simpa using h.symm
    | bool b => simpa using h.symm
    | num n => simpa using h.symm
    | arr l => simpa using h.symm
    | obj fs => simpa using h.symm

/-- The resolver leaves a re-injected node (which has no reference)
unchanged. -/
theorem resolveRef_toJs (f2 : Nat) (spec : Option Js) (P : SimplifiedSchema) :
    resolveRef (f2+1) (simplifiedToJs P) spec = some (simplifiedToJs P) := by
  obtain ⟨t, sn, d, e, en, rq, p, i⟩ := P
  cases spec with
  | none => simp [resolveRef, toJs_truthy]
  | some doc =>
    have href := sfields_get_other t sn d e en rq
      (p.map (fun l => Js.obj (simplifiedPropsToJs l))) (i.map simplifiedToJs) "$ref"
      (by decide) (by decide) (by decide) (by decide) (by decide) (by decide) (by decide)
      (by decide)
    rw [simplifiedToJs_mk]
    simp only [resolveRef, jsGet, href]
    rw [if_neg (by simp [jsTruthy])]

/-- The effective view of a re-injected full node copies its fields
verbatim. -/
theorem getEff_toJs (f2 : Nat) (spec : Option Js) (t : Js) (sn : Option String)
    (d e en : Option Js) (rl : List Js) (pl : List (String × SimplifiedSchema))
    (i : Option SimplifiedSchema) :
    getEffectiveSchema (f2+2) (simplifiedToJs (.mk t sn d e en (some rl) (some pl) i)) spec =
      some { properties := some (simplifiedPropsToJs pl), type := some t, enum := en,
             items := i.map simplifiedToJs, required := some rl } := by
  have hres := resolveRef_toJs f2 spec (.mk t sn d e en (some rl) (some pl) i)
  have hallOf := sfields_get_other t sn d e en (some rl)
    ((some pl).map (fun l => Js.obj (simplifiedPropsToJs l))) (i.map simplifiedToJs) "allOf"
    (by decide) (by decide) (by decide) (by decide) (by decide) (by decide) (by decide)
    (by decide)
  rw [simplifiedToJs_mk] at hres ⊢
  rw [getEffectiveSchema]
  rw [if_neg (by simp [jsTruthy])]
  rw [hres]
  simp only [Option.map_some'] at hallOf
  simp only [jsGet, hallOf, sfields_get_type, sfields_get_enum, sfields_get_items,
    sfields_get_properties, sfields_get_required, Option.map_some']
  simp [spreadFields, reqList]

/-- `a ?? undefined` is `a` when `a` is not null. -/
theorem jsCoalesceO_none_right (d : Option Js)
    (hd : (match d with | some Js.null => false | _ => true) = true) :
    jsCoalesceO d none = d := by
  cases d with
  | none => rfl
  | some v => cases v <;> simp_all [jsCoalesceO]

/-- The property loop on a re-injected full property list rebuilds it with
names erased. -/
theorem simplifyPropsWith_toJs
    (sf : Option Js → Option Js → Option String → Option SimplifiedSchema)
    (en : Option Js → Option Js → Option (Option String))
    (hsf : ∀ Q s, fullS Q = true → sf (some (simplifiedToJs Q)) none none = some s →
           s = eraseNames Q)
    (hen : ∀ Q r, en none (some (simplifiedToJs Q)) = some r → r = none) :
    ∀ pl out, fullProps pl = true →
      simplifyPropsWith sf en none (simplifiedPropsToJs pl) = some out →
      out = eraseNamesProps pl := by
  intro pl
  induction pl with
  | nil =>
    intro out _ h
    simp only [simplifiedPropsToJs, simplifyPropsWith] at h
    cases h
    rfl
  | cons kv rest ih =>
    intro out hfull h
    obtain ⟨key, Q⟩ := kv
    have hfq : fullS Q = true ∧ fullProps rest = true := by
      simpa [fullProps, Bool.and_eq_true] using hfull
    simp only [simplifiedPropsToJs, simplifyPropsWith, Option.bind_none] at h
    cases hen2 : en none (some (simplifiedToJs Q)) with
    | none =>
      rw [show ((none : Option Eff).bind Eff.properties).bind
            (fun ps => jsObjGet ps key) = none from rfl] at h
      rw [hen2] at h
      exact Option.noConfusion h
    | some propName =>
      have hpn := hen Q propName hen2
      subst hpn
      rw [show ((none : Option Eff).bind Eff.properties).bind
            (fun ps => jsObjGet ps key) = none from rfl] at h
      rw [hen2] at h
      simp only [] at h
      cases hs : sf (some (simplifiedToJs Q)) none none with
      | none => rw [hs] at h; exact Option.noConfusion h
      | some s =>
        rw [hs] at h
        cases hrest : simplifyPropsWith sf en none (simplifiedPropsToJs rest) with
        | none => rw [hrest] at h; exact Option.noConfusion h
        | some others =>
          rw [hrest] at h
          simp only [Option.some.injEq] at h
          subst h
          rw [hsf Q s hfq.1 hs, ih others hfq.2 hrest]
          rfl

/-- Constructor unfolding for `fullS`. -/
theorem fullS_mk (t : Js) (sn : Option String) (d e en : Option Js) (r : Option (List Js))
    (p : Option (List (String × SimplifiedSchema))) (i : Option SimplifiedSchema) :
    fullS (.mk t sn d e en r p i) =
      (jsTruthy t &&
       (match d with | some Js.null => false | _ => true) &&
       (match e with | some Js.null => false | _ => true) &&
       (match r with | some _ => true | none => false) &&
       (match p with | some l => fullProps l | none => false) &&
       (match i with | some s => typeHasArray t && fullS s | none => true)) := by
  cases r <;> cases p <;> cases i <;> rfl

/-- Constructor unfolding for `eraseNames`. -/
theorem eraseNames_mk (t : Js) (sn : Option String) (d e en : Option Js)
    (r : Option (List Js)) (p : Option (List (String × SimplifiedSchema)))
    (i : Option SimplifiedSchema) :
    eraseNames (.mk t sn d e en r p i) =
      .mk t none d e en r (p.map eraseNamesProps) (i.map eraseNames) := by
  cases p <;> cases i <;> rfl

/-- Claim C4 helper: simplifying a re-injected full simplified tree (no
original counterpart, no pre-resolved name) rebuilds exactly the same
tree with every recovered schema name removed. -/
theorem resimplify : ∀ (fuel : Nat) (P : SimplifiedSchema) (spec : Option Js)
    (out : SimplifiedSchema), fullS P = true →
    simplifySchema fuel (some (simplifiedToJs P)) none none spec = some out →
    out = eraseNames P := by
  intro fuel
  induction fuel with
  | zero =>
    intro P spec out _ h
    simp [simplifySchema] at h
  | succ f ih =>
    intro P spec out hfull h
    obtain ⟨t, sn, d, e, en2, rq, p, i⟩ := P
    rw [fullS_mk] at hfull
    cases rq with
    | none => simp at hfull
    | some rl =>
    cases p with
    | none => simp at hfull
    | some pl =>
    simp only [Bool.and_eq_true] at hfull
    obtain ⟨⟨⟨⟨⟨hT, hD⟩, hE⟩, _⟩, hPl⟩, hI⟩ := hfull
    have hdesc : jsCoalesceO
        (jsGet (simplifiedToJs (.mk t sn d e en2 (some rl) (some pl) i)) "description")
        (jsOGet none "description") = d := by
      rw [simplifiedToJs_mk]
      simp only [jsGet, sfields_get_description, jsOGet]
      exact jsCoalesceO_none_right d hD
    have hex : jsCoalesceO
        (jsGet (simplifiedToJs (.mk t sn d e en2 (some rl) (some pl) i)) "example")
        (jsOGet none "example") = e := by
      rw [simplifiedToJs_mk]
      simp only [jsGet, sfields_get_example, jsOGet]
      exact jsCoalesceO_none_right e hE
    have hgi : jsGet (simplifiedToJs (.mk t sn d e en2 (some rl) (some pl) i)) "items" =
        i.map simplifiedToJs := by
      rw [simplifiedToJs_mk]
      simp only [jsGet, sfields_get_items]
    simp only [simplifySchema] at h
    rw [if_neg (by simp [toJs_truthy])] at h
    cases hesn : esnChain f none
        (some (simplifiedToJs (.mk t sn d e en2 (some rl) (some pl) i))) with
    | none => rw [hesn] at h; exact Option.noConfusion h
    | some r0 =>
      have hr0 : r0 = none := esn_toJs f _ r0 (by simpa [esnChain, esnO] using hesn)
      subst hr0
      rw [hesn] at h
      dsimp only [] at h
      cases f with
      | zero => simp [getEffectiveSchema] at h
      | succ f2 =>
      cases f2 with
      | zero => simp [getEffectiveSchema, resolveRef, toJs_truthy] at h
      | succ f3 =>
      rw [getEff_toJs f3 spec t sn d e en2 rl pl i] at h
      dsimp only [] at h
      cases hsp : simplifyPropsWith
          (fun a b c => simplifySchema (f3+1+1) a b c spec)
          (fun a b => esnChain (f3+1+1) a b) none (simplifiedPropsToJs pl) with
      | none => rw [hsp] at h; exact Option.noConfusion h
      | some propsList =>
        rw [hsp] at h
        simp only [Option.map_some'] at h
        have hprops : propsList = eraseNamesProps pl := by
          refine simplifyPropsWith_toJs _ _ ?_ ?_ pl propsList hPl hsp
          · intro Q s hQ hs
            exact ih Q spec s hQ hs
          · intro Q r2 h2
            refine esn_toJs (f3+1+1) Q r2 ?_
            simpa [esnChain, esnO] using h2
        have hET : effType (Eff.mk (some (simplifiedPropsToJs pl)) (some t) en2
            (Option.map simplifiedToJs i) (some rl)) = t := by
          simp [effType, hT]
        simp only [simplifyItemsWith, hET, hgi] at h
        cases i with
        | none =>
          simp only [Option.map_none', jsOrO, jsTruthyO, Bool.and_false] at h
          rw [if_neg (by simp)] at h
          simp only [Option.some.injEq] at h
          subst h
          rw [eraseNames_mk]
          rw [hdesc, hex, hprops]
          rfl
        | some Q =>
          have hQparts : typeHasArray t = true ∧ fullS Q = true := by
            simpa [Bool.and_eq_true] using hI
          simp only [Option.map_some'] at h
          rw [show jsOrO (some (simplifiedToJs Q)) (some (simplifiedToJs Q)) =
                some (simplifiedToJs Q) from by simp [jsOrO, jsTruthyO, toJs_truthy]] at h
          rw [if_pos (by simp [hQparts.1, jsTruthyO, toJs_truthy])] at h
          rw [show jsOrO ((none : Option Eff).bind Eff.items) (jsOGet none "items") =
                none from rfl] at h
          cases hesn2 : esnChain (f3+1+1) none (some (simplifiedToJs Q)) with
          | none => rw [hesn2] at h; exact Option.noConfusion h
          | some r3 =>
            have hr3 : r3 = none :=
              esn_toJs (f3+1+1) Q r3 (by simpa [esnChain, esnO] using hesn2)
            subst hr3
            rw [hesn2] at h
            dsimp only [] at h
            cases hsq : simplifySchema (f3+1+1) (some (simplifiedToJs Q)) none none spec with
            | none => rw [hsq] at h; exact Option.noConfusion h
            | some sq =>
              have hsqe := ih Q spec sq hQparts.2 hsq
              subst hsqe
              rw [hsq] at h
              simp only [Option.map_some', Option.some.injEq] at h
              subst h
              rw [eraseNames_mk]
              rw [hdesc, hex, hprops]
              rfl

/-- Claim C4 (amended): re-simplifying a first-pass output forming a full
tree — every node carries its `properties` and `required` fields, no
null-valued description or example, a truthy type label, and an `items`
node only under an array type label — yields that tree with every
recovered schema name removed; outside that scope even the name-erased
identity fails: the output containing an absent-schema node (`c10out`)
re-simplifies to `c4refill`, whose nested node has gained empty
`required` and `properties` tables, so it differs from the name-erased
first output. -/
theorem C4_resimplify_drops_names (fuelA fuelB : Nat) (sO oO : Option Js) (nO : Option String)
    (spec : Option Js) (P out : SimplifiedSchema)
    (hfirst : simplifySchema fuelA sO oO nO spec = some P)
    (hfull : fullS P = true)
    (hsecond : simplifySchema fuelB (some (simplifiedToJs P)) none none spec = some out) :
    out = eraseNames P ∧
    simplifySchema 10 (some (simplifiedToJs c10out)) none none none = some c4refill ∧
    c4refill ≠ eraseNames c10out :=
  ⟨resimplify fuelB P spec out hfull hsecond, rfl,
   fun hc => absurd (congrArg simplifiedToJs hc) (by decide)⟩

/-- Witness for C4_resimplify_drops_names at the concrete "Pet" array,
together with the refilled tree the full-tree hypothesis excludes. -/
theorem C4_resimplify_drops_names_witness :
    c4out2 = eraseNames c4out1 ∧ c4refill ≠ eraseNames c10out :=
  have h := C4_resimplify_drops_names 10 10 (some c4schema) none none none c4out1 c4out2
    rfl rfl rfl
  ⟨h.1, h.2.2⟩

/-- Counterexample to claim C4 as stated: re-simplifying the first output
of the "Pet" array schema drops the recovered names, so the second tree
differs from the first. -/
theorem C4_counterexample :
    simplifySchema 10 (some c4schema) none none none = some c4out1 ∧
    simplifySchema 10 (some (simplifiedToJs c4out1)) none none none = some c4out2 ∧
    c4out2 ≠ c4out1 := by
  refine ⟨rfl, rfl, ?_⟩
  intro hc
  have h2 := congrArg SimplifiedSchema.schemaName hc
  simp [c4out2, c4out1, SimplifiedSchema.schemaName] at h2

/-- Claim C10: simplifying a present schema always defines the `properties`
map and `required` list of the produced node, and recursively every
nested property or item node either defines both or is the node produced
for an absent schema. -/
theorem C10_simplified_fields_defined (fuel : Nat) (schemaO origO : Option Js)
    (nameO : Option String) (spec : Option Js) (out : SimplifiedSchema)
    (htr : jsTruthyO schemaO = true)
    (h : simplifySchema fuel schemaO origO nameO spec = some out) :
    out.properties.isSome = true ∧ out.required.isSome = true ∧ goodS out = true := by
  obtain ⟨hg, hd⟩ := simplify_good fuel schemaO origO nameO spec out h
  obtain ⟨h1, h2⟩ := hd htr
  exact ⟨h1, h2, hg⟩

/-- Witness for C10_simplified_fields_defined at a concrete object schema
with a null-valued property. -/
theorem C10_simplified_fields_defined_witness :
    c10out.properties.isSome = true ∧ c10out.required.isSome = true ∧ goodS c10out = true :=
  C10_simplified_fields_defined 10 (some c10schema) none none none c10out rfl rfl

/-- Claim C7: with no modern request body, a found body-located parameter
with a truthy schema yields a record with JSON content type, the
parameter's own required flag (false when absent), and the name recovered
from the dialect-matched original parameter's reference. -/
theorem C7_swagger2_body (fuel : Nat) (operation pathItem : Js) (origOp spec : Option Js)
    (params : List ParameterInfo) (bp s : Js) (rb : RequestBodyInfo)
    (hmodern : jsTruthyO (jsGet operation "requestBody") = false)
    (hparams : extractAllParameters fuel operation pathItem = some (params, some bp))
    (hschema : jsGet bp "schema" = some s)
    (hstr : jsTruthy s = true)
    (h : extractEndpointRequestBody fuel operation (some bp) origOp spec = some (some rb)) :
    rb.contentType = "application/json" ∧
    (∀ b : Bool, jsGet bp "required" = some (Js.bool b) → rb.required = Js.bool b) ∧
    (jsGet bp "required" = none → rb.required = Js.bool false) ∧
    (∀ ps obp os ref, jsOGet origOp "parameters" = some ps →
       findBodyParam ps = some obp →
       jsGet obp "schema" = some os →
       jsGet os "$ref" = some (Js.str ref) →
       lastSeg ref = "Pet" →
       rb.schemaName = some "Pet") := by
  have htrbp : jsTruthy bp = true := by
    cases bp <;> simp_all [jsGet, jsTruthy]
  simp only [extractEndpointRequestBody] at h
  split at h
  · exact Option.noConfusion h
  · rw [if_neg (by simp [hmodern])] at h
    rw [if_pos (by simp [htrbp])] at h
    simp only [extractSwagger2BodyParam, hschema] at h
    rw [if_neg (by simp [jsTruthyO, hstr])] at h
    cases hsn : esnChain fuel
        (jsOGet (match jsOGet origOp "parameters" with
                 | some ps => findBodyParam ps
                 | none => none) "schema") (some s) with
    | none => rw [hsn] at h; exact Option.noConfusion h
    | some sn =>
      rw [hsn] at h
      dsimp only [] at h
      cases hsim : simplifySchema fuel (some s)
          (jsOGet (match jsOGet origOp "parameters" with
                   | some ps => findBodyParam ps
                   | none => none) "schema") sn spec with
      | none => rw [hsim] at h; exact Option.noConfusion h
      | some sch =>
        rw [hsim] at h
        simp only [Option.some.injEq] at h
        subst h
        refine ⟨rfl, ?_, ?_, ?_⟩
        · intro b hb
          simp [jsCoalesceV, hb]
        · intro hb
          simp [jsCoalesceV, hb]
        · intro ps obp os ref hp1 hp2 hp3 hp4 hp5
          rw [hp1] at hsn
          dsimp only [] at hsn
          rw [hp2] at hsn
          dsimp only [jsOGet] at hsn
          rw [hp3] at hsn
          have hrefne : ref ≠ "" := by
            intro hc
            rw [hc] at hp5
            simp [lastSeg, splitChar, splitCharAux] at hp5
          cases fuel with
          | zero => simp [esnChain, esnO, extractSchemaName] at hsn
          | succ f =>
            rw [show esnChain (f+1) (some os) (some s) =
                  match extractSchemaName (f+1) os with
                  | none => none
                  | some (some n) => some (some n)
                  | some none => extractSchemaName (f+1) s from rfl] at hsn
            rw [esn_direct_ref f os ref hp4 hrefne] at hsn
            dsimp only [] at hsn
            rw [hp5] at hsn
            simp only [Option.some.injEq] at hsn
            subst hsn
            rfl

/-- Witness for C7_swagger2_body at a concrete Swagger 2.0 operation with a
referenced Pet body parameter. -/
theorem C7_swagger2_body_witness :
    c7rb.contentType = "application/json" ∧ c7rb.required = Js.bool true ∧
      c7rb.schemaName = some "Pet" :=
  have h := C7_swagger2_body 10 c7operation (Js.obj []) (some c7origOp) none
    [] c7bodyParam c7schema c7rb rfl rfl rfl rfl rfl
  ⟨h.1, h.2.1 true rfl,
   h.2.2.2 (Js.arr [c7origBP]) c7origBP
     (Js.obj [("$ref", Js.str "#/definitions/Pet")]) "#/definitions/Pet"
     rfl rfl rfl rfl rfl⟩

/-- Claim C8: with a modern request body declared, routing never consults
the body parameter, extraction reads the request-body object alone, no
record is produced without declared content types, JSON content is
preferred, and otherwise the first declared (non-empty) content type is
chosen. -/
theorem C8_modern_body (fuel : Nat) (operation : Js) (origOp spec : Option Js)
    (hmodern : jsTruthyO (jsGet operation "requestBody") = true) :
    (∀ bp1 bp2, extractEndpointRequestBody fuel operation bp1 origOp spec =
       extractEndpointRequestBody fuel operation bp2 origOp spec) ∧
    (∀ bp body, jsTruthyO (jsOGet (jsOGet origOp "requestBody") "$ref") = false →
       jsGet operation "requestBody" = some body →
       extractEndpointRequestBody fuel operation bp origOp spec =
         extractRequestBody fuel body (jsOGet origOp "requestBody") spec) ∧
    (∀ body ob, jsGet body "content" = none →
       extractRequestBody fuel body ob spec = some none) ∧
    (∀ body ob content, jsGet body "content" = some content → jsTruthy content = false →
       extractRequestBody fuel body ob spec = some none) ∧
    (∀ body ob content, jsGet body "content" = some content → jsKeys content = [] →
       jsTruthyO (jsGet content "application/json") = false →
       extractRequestBody fuel body ob spec = some none) ∧
    (∀ body ob content rb, jsGet body "content" = some content →
       jsTruthyO (jsGet content "application/json") = true →
       extractRequestBody fuel body ob spec = some (some rb) →
       rb.contentType = "application/json") ∧
    (∀ body ob content k rest rb, jsGet body "content" = some content →
       jsTruthyO (jsGet content "application/json") = false →
       jsKeys content = k :: rest → k ≠ "" →
       extractRequestBody fuel body ob spec = some (some rb) →
       rb.contentType = k) := by
  refine ⟨?_, ?_, ?_, ?_, ?_, ?_, ?_⟩
  · intro bp1 bp2
    simp [extractEndpointRequestBody, hmodern]
  · intro bp body href hbody
    simp only [extractEndpointRequestBody]
    rw [if_neg (by simp [href])]
    dsimp only []
    rw [if_pos hmodern, hbody]
  · intro body ob hc
    simp [extractRequestBody, hc]
  · intro body ob content hc htr
    simp [extractRequestBody, hc, htr]
  · intro body ob content hc hk hj
    simp only [extractRequestBody, hc]
    cases htr : jsTruthy content with
    | false => rfl
    | true => simp [hj, hk]
  · intro body ob content rb hc hj h
    simp only [extractRequestBody, hc] at h
    cases htr : jsTruthy content with
    | false =>
      rw [if_pos htr] at h
      exact Option.noConfusion (Option.some.inj h)
    | true =>
      rw [if_neg (by simp [htr]), if_pos hj] at h
      dsimp only [] at h
      split at h
      · exact Option.noConfusion h
      · split at h
        · exact Option.noConfusion h
        · simp only [Option.some.injEq] at h
          subst h
          rfl
  · intro body ob content k rest rb hc hj hk hkne h
    simp only [extractRequestBody, hc] at h
    cases htr : jsTruthy content with
    | false =>
      rw [if_pos htr] at h
      exact Option.noConfusion (Option.some.inj h)
    | true =>
      rw [if_neg (by simp [htr]), if_neg (by simp [hj]), hk] at h
      dsimp only [] at h
      rw [if_neg hkne] at h
      dsimp only [] at h
      split at h
      · exact Option.noConfusion h
      · split at h
        · exact Option.noConfusion h
        · simp only [Option.some.injEq] at h
          subst h
          rfl

/-- Witness for C8_modern_body at a concrete operation with a modern
request body, one scenario with JSON content and one without. -/
theorem C8_modern_body_witness :
    extractEndpointRequestBody 10 c8operation (some (Js.str "x")) none none =
      extractEndpointRequestBody 10 c8operation none none none ∧
    extractEndpointRequestBody 10 c8operation none none none =
      extractRequestBody 10 c8body none none ∧
    c8rb.contentType = "application/json" ∧
    c8rbAlt.contentType = "text/plain" :=
  have h := C8_modern_body 10 c8operation none none rfl
  ⟨h.1 (some (Js.str "x")) none,
   h.2.1 none c8body rfl rfl,
   h.2.2.2.2.2.1 c8body none c8content c8rb rfl rfl rfl,
   h.2.2.2.2.2.2 c8bodyAlt none c8contentAlt "text/plain" [] c8rbAlt rfl rfl rfl
     (by decide) rfl⟩

/-- Claim C1 (amended): for a declared, truthy, non-deprecated-skipped
operation, the methods loop skips it for tag reasons exactly when SOME
declared tag is in the excluded-tag set (not when every tag is); with at
least one excluded tag among several the operation is dropped; an
operation with no tags is treated as tagged "default". -/
theorem C1_tag_exclusion (fuel : Nat) (opts : ExtractorOptions) (path method : String)
    (pathItem : Js) (origPI : Option Js) (operation : Js)
    (hop : jsGet pathItem method = some operation)
    (htr : jsTruthy operation = true)
    (hdep : (opts.excludeDeprecated && jsTruthyO (jsGet operation "deprecated")) = false) :
    (extractMethodsList fuel opts path pathItem origPI [method] = some [] ↔
       tagsSome (jsCoalesceV (jsGet operation "tags") (Js.arr [Js.str "default"]))
         opts.excludeTags = true) ∧
    (∀ tags, jsGet operation "tags" = some (Js.arr tags) →
       (tagsSome (Js.arr tags) opts.excludeTags = true ↔
          ∃ t ∈ tags, jsIncludes opts.excludeTags t = true)) ∧
    (jsGet operation "tags" = none →
       (tagsSome (jsCoalesceV (jsGet operation "tags") (Js.arr [Js.str "default"]))
          opts.excludeTags = true ↔ "default" ∈ opts.excludeTags)) ∧
    (tagsSome (jsCoalesceV (jsGet operation "tags") (Js.arr [Js.str "default"]))
       opts.excludeTags = false →
       extractMethodsList fuel opts path pathItem origPI [method] =
         (extractEndpoint fuel path method operation pathItem (jsOGet origPI method)
            opts.originalSpec).map (fun e => [e])) := by
  have hbase : extractMethodsList fuel opts path pathItem origPI [] = some [] := rfl
  refine ⟨?_, ?_, ?_, ?_⟩
  · simp only [extractMethodsList, hop, hbase]
    rw [if_neg (by simp [htr]), if_neg (by simp [hdep])]
    cases hts : tagsSome (jsCoalesceV (jsGet operation "tags") (Js.arr [Js.str "default"]))
        opts.excludeTags with
    | true => simp
    | false =>
      rw [if_neg (by simp)]
      cases extractEndpoint fuel path method operation pathItem (jsOGet origPI method)
          opts.originalSpec with
      | none => simp
      | some e => simp
  · intro tags htags
    simp [tagsSome, List.any_eq_true]
  · intro htags
    simp [htags, tagsSome, jsCoalesceV, jsIncludes, List.contains_iff_exists_mem_beq]
  · intro hts
    simp only [extractMethodsList, hop, hbase]
    rw [if_neg (by simp [htr]), if_neg (by simp [hdep]), if_neg (by simp [hts])]
    cases extractEndpoint fuel path method operation pathItem (jsOGet origPI method)
        opts.originalSpec with
    | none => rfl
    | some e => rfl

/-- Witness for C1_tag_exclusion: an operation tagged "a" and "b" is
dropped when only "a" is excluded. -/
theorem C1_tag_exclusion_witness :
    extractMethodsList 20 c1opts "/p" (Js.obj [("get", c1operation)]) none ["get"] = some [] :=
  have h := C1_tag_exclusion 20 c1opts "/p" "get" (Js.obj [("get", c1operation)]) none
    c1operation rfl rfl rfl
  (h.1).mpr rfl

/-- Counterexample to claim C1 as stated: the operation declares tag "b"
outside the excluded set, yet the whole document extracts to the empty
endpoint list because its other tag "a" is excluded. -/
theorem C1_counterexample :
    jsGet c1operation "tags" = some (Js.arr [Js.str "a", Js.str "b"]) ∧
    c1opts.excludeTags.contains "b" = false ∧
    extractEndpoints 20 c1spec c1opts = some [] :=
  ⟨rfl, by decide, rfl⟩
